import Mathlib

/-!
# cf: the scan-and-catalog engine of `cf.go`

A shallow embedding of `cf.go`.  The program talks to two outside parties, the
operating system (`os.Lstat`, `os.Open`, `Readdir`, reads) and an SQL store
(`database/sql` over sqlite3).  Both are made explicit:

* what the operating system answers for a path is carried by an `FsNode`, the
  tree of answers that `walk` meets when it descends from a root path;
* what the store answers is carried by `Env`, indexed by the number of calls
  made so far;
* the global mutable state (`stats`, `db`, `dbtx`) is the `World` that every
  stateful function takes and returns; its `trace` lists, in order, the system
  calls of `walk` and the store operations.

Printing (`fmt.Println`, `fmt.Printf`) is not modelled.
-/

namespace Cf

/-! ## Constants and machine integers -/

/-- The status bit `fsError = 1 << iota` with `iota = 0`: error while reading entry. -/
def fsError : Nat := 1

/-- The status bit `fsNoHash = 1 << iota` with `iota = 1`. -/
def fsNoHash : Nat := 2

/-- The operating mode `modeCreate = iota` (0). -/
def modeCreate : Int := 0

/-- The operating mode `modeList = iota` (1). -/
def modeList : Int := 1

/-- The bit `os.ModeDir = 1 << 31` of `os.FileMode`. -/
def ModeDir : Nat := 2147483648

/-- The bit `os.ModeSymlink = 1 << 27` of `os.FileMode`. -/
def ModeSymlink : Nat := 134217728

/-- The Go conversion `int32(x)` of an `int64`: wrap into `[-2^31, 2^31)`. -/
def toInt32 (x : Int) : Int := (x + 2147483648) % 4294967296 - 2147483648

/-- Wrap-around of `int64` arithmetic: wrap into `[-2^63, 2^63)`. -/
def toInt64 (x : Int) : Int :=
  (x + 9223372036854775808) % 18446744073709551616 - 9223372036854775808

/-- Wrap-around of `uint32` arithmetic. -/
def toUint32 (n : Nat) : Nat := n % 4294967296

/-! ## Data model -/

/-- The part of `os.FileInfo` that the program reads: `Name()`, `Size()`,
`Mode()` and `ModTime()` (a timestamp). -/
structure FileInfo where
  name : String
  size : Int
  mode : Nat
  modTime : Int
deriving DecidableEq, Repr

/-- The method `IsDir()` of the `os.FileInfo` values that `os.Lstat` and `Readdir`
return: the `ModeDir` bit of the mode. -/
def FileInfo.IsDir (f : FileInfo) : Bool := f.mode &&& ModeDir != 0

/-- The test `fileInfo.Mode()&os.ModeSymlink == 0` of `walk`, negated. -/
def FileInfo.isSymlink (f : FileInfo) : Bool := f.mode &&& ModeSymlink != 0

/-- The nil `os.FileInfo` that `walk` hands to `checkFile` when `Lstat` failed;
`checkFile` does not read it on that branch. -/
def nilInfo : FileInfo := { name := "", size := 0, mode := 0, modTime := 0 }

/-- The record `fileData`; a nil byte slice is `none`. -/
structure fileData where
  scanID : Int
  id : Int
  parentID : Int
  name : String
  status : Nat
  size : Int
  mode : Nat
  modtime : Int
  md5 : Option (List Nat)
  sha1 : Option (List Nat)
deriving DecidableEq, Repr

/-- The record `perfStats`: `files` and `dirs` are `uint32`, `bytes` is `int64`. -/
structure perfStats where
  files : Nat
  dirs : Nat
  bytes : Int
  start : Int
deriving DecidableEq, Repr

/-- The command `createCommand` with its flag `NoHash`. -/
structure createCommand where
  NoHash : Bool
deriving DecidableEq, Repr

/-- What `os.Open` followed by the reads of `io.Copy` deliver for a path: the
open fails, or the stream yields `bytes` and then ends, at end of file when
`readErr` is `none` and with a read error otherwise. -/
inductive FileContent where
  | openFail (err : String)
  | stream (bytes : List Nat) (readErr : Option String)
deriving DecidableEq, Repr

/-- What the operating system answers at one path and below it: the result of
`os.Lstat`, the content met when the path is opened for hashing, and the result
of `readDir` (`dirErr` when `os.Open` or `Readdir` fails, else the listed
entries, each with the answers for the path of that entry). -/
inductive FsNode where
  | mk (lstat : Except String FileInfo) (content : FileContent)
      (dirErr : Option String) (entries : List (FileInfo × FsNode)) : FsNode

/-- The content met when the path of this node is opened. -/
def FsNode.content : FsNode → FileContent
  | .mk _ c _ _ => c

/-- The outcome of `stmt.Exec` followed by `res.LastInsertId()`: the statement
fails, or a row is stored under `rowid` and `LastInsertId` reports it unless
`idErr` is set. -/
inductive ExecResult where
  | failed (err : String)
  | ok (rowid : Int) (idErr : Option String)
deriving DecidableEq, Repr

/-- One observable step: a system call of `walk` or an operation on the store.
For `exec`, the statement run by `db.Exec` and whether it succeeded. -/
inductive Event where
  | lstat (path : String)
  | readDir (path : String)
  | sqlOpen (dbname : String)
  | exec (sql : String) (ok : Bool)
  | dbBegin
  | prepare (sql : String) (ok : Bool)
  | execScan (dir : String) (time : Int) (r : ExecResult)
  | execFile (fdat : fileData) (r : ExecResult)
  | dbCommit
  | dbClose
deriving DecidableEq, Repr

/-- The outside world of one run: the library functions the program calls
(`filepath.Join`, `filepath.Base`, the MD5 and SHA1 digests of a byte
sequence, the clock) and the answers of the store, the n-th answer being the
one given to the n-th call of that kind. -/
structure Env where
  join : String → String → String
  base : String → String
  md5sum : List Nat → List Nat
  sha1sum : List Nat → List Nat
  now : Int
  openErr : Option String
  beginErr : Option String
  execErr : Nat → Option String
  prepareErr : Nat → Option String
  execScan : Nat → ExecResult
  execFile : Nat → ExecResult

/-- The mutable state: the counters, the trace of events so far, and how many
`db.Exec`, `Prepare` and statement `Exec` calls the store has answered. -/
structure World where
  stats : perfStats
  trace : List Event
  nExec : Nat
  nPrepare : Nat
  nExecScan : Nat
  nExecFile : Nat
deriving DecidableEq, Repr

/-- The state at program start: zero counters, nothing done. -/
def World.init : World :=
  { stats := { files := 0, dirs := 0, bytes := 0, start := 0 }
    trace := [], nExec := 0, nPrepare := 0, nExecScan := 0, nExecFile := 0 }

/-- Append one event to the trace. -/
def World.emit (w : World) (e : Event) : World :=
  { w with trace := w.trace ++ [e] }

/-! ## The SQL text -/

def sqlPragma : String := "pragma pagesize=4096"

def sqlCreateScan : String :=
  "CREATE TABLE IF NOT EXISTS scan(\nid \tINTEGER PRIMARY KEY AUTOINCREMENT, \ndir text,\ntime text not null)"

def sqlCreateFile : String :=
  "CREATE TABLE IF NOT EXISTS file(\nscan_id\tinteger not null,\nid INTEGER primary key AUTOINCREMENT,\nparent_id INTEGER,\nname \ttext not null, \nstatus  integer,\nsize \tinteger,\nmode \tinteger,\nmodtime blob,\nmd5 \tblob,\nsha1 \tblob)"

def sqlCreateIdxId : String := "CREATE UNIQUE INDEX IF NOT EXISTS file_id on file (scan_id, id)"

def sqlCreateIdxMd5 : String := "CREATE INDEX IF NOT EXISTS file_md5 on file (scan_id, md5)"

def sqlCreateIdxSha1 : String := "CREATE INDEX IF NOT EXISTS file_sha1 on file (scan_id, sha1)"

def sqlDropIdxId : String := "DROP INDEX IF EXISTS file_id"

def sqlDropIdxMd5 : String := "drop INDEX IF EXISTS file_md5"

def sqlDropIdxSha1 : String := "drop INDEX IF EXISTS file_sha1"

def sqlInsertScan : String := "insert into scan(dir, time) values(?, ?)"

def sqlInsertFile : String :=
  "insert into file(scan_id, parent_id, name, status, size, mode, modtime, md5, sha1) values(?, ?, ?, ?, ?, ?, ?, ?, ?)"

/-! ## The program -/

/-- The closure `execsql` of `dbInit`: run the statement with `db.Exec`; a
failure is only printed. -/
def execsql (env : Env) (sql : String) (w : World) : World :=
  { w.emit (.exec sql (env.execErr w.nExec).isNone) with nExec := w.nExec + 1 }

/-- The function `dbInit`: open the store, create the tables, then create or
drop the indexes according to `mode`.  Returns the error, if any. -/
def dbInit (env : Env) (dbname : String) (mode : Int) (w : World) : Option String × World :=
  let w := w.emit (.sqlOpen dbname)
  match env.openErr with
  | some dberr => (some ("unable to open the database: " ++ dberr), w)
  | none =>
    let w := execsql env sqlPragma w
    let w := execsql env sqlCreateScan w
    let w := execsql env sqlCreateFile w
    if Int.land mode modeList = modeList then
      let w := execsql env sqlCreateIdxId w
      let w := execsql env sqlCreateIdxMd5 w
      let w := execsql env sqlCreateIdxSha1 w
      (none, w)
    else if Int.land mode modeCreate = modeCreate then
      let w := execsql env sqlDropIdxId w
      let w := execsql env sqlDropIdxMd5 w
      let w := execsql env sqlDropIdxSha1 w
      (none, w)
    else
      (none, w)

/-- The function `hashFile`, returning (error, MD5 sum, SHA1 sum).  When the
open fails the error is returned with nil sums.  Otherwise `io.Copy` feeds both
hashes with the bytes it could read and its own result is dropped, so the sums
of those bytes are returned with a nil error. -/
def hashFile (env : Env) (c : FileContent) :
    Option String × Option (List Nat) × Option (List Nat) :=
  match c with
  | .openFail err => (some err, none, none)
  | .stream bytes _ => (none, some (env.md5sum bytes), some (env.sha1sum bytes))

/-- The function `checkFile`: build the record of one path and update the
counters.  `c` is what opening `fpath` gives, should `hashFile` be called. -/
def checkFile (env : Env) (c : FileContent) (fpath : String) (f : FileInfo)
    (err : Option String) (scanID parentID : Int) (stats : perfStats) (NoHash : Bool) :
    fileData × perfStats :=
  let fdat : fileData :=
    { scanID := scanID, id := 0, parentID := parentID, name := fpath, status := 0,
      size := 0, mode := 0, modtime := 0, md5 := none, sha1 := none }
  match err with
  | some _ => ({ fdat with status := fdat.status ||| fsError }, stats)
  | none =>
    let fdat := { fdat with size := f.size, mode := f.mode, modtime := f.modTime }
    if f.IsDir then
      ({ fdat with name := env.base fpath }, { stats with dirs := toUint32 (stats.dirs + 1) })
    else
      let fdat :=
        if NoHash then
          { fdat with status := fdat.status ||| fsNoHash }
        else
          match hashFile env c with
          | (herr, sumMD5, sumSHA1) =>
            let fdat := { fdat with md5 := sumMD5, sha1 := sumSHA1 }
            match herr with
            | some _ => { fdat with status := fdat.status ||| fsError }
            | none => fdat
      ({ fdat with name := env.base fpath },
        { stats with files := toUint32 (stats.files + 1),
                     bytes := toInt64 (stats.bytes + f.size) })

/-- The function `newScan`: insert the row of a scan and return its identifier
converted to `int32`, or the error of `Prepare`, `Exec` or `LastInsertId`. -/
def newScan (env : Env) (dir : String) (w : World) : Except String Int × World :=
  let perr := env.prepareErr w.nPrepare
  let w := { w.emit (.prepare sqlInsertScan perr.isNone) with nPrepare := w.nPrepare + 1 }
  match perr with
  | some dberr => (.error dberr, w)
  | none =>
    let r := env.execScan w.nExecScan
    let w := { w.emit (.execScan dir env.now r) with nExecScan := w.nExecScan + 1 }
    match r with
    | .failed dberr => (.error dberr, w)
    | .ok _ (some reserr) => (.error reserr, w)
    | .ok scanID none => (.ok (toInt32 scanID), w)

/-- The loop of `newFiles` over the batch; `fileID` is the variable of that name. -/
def newFilesLoop (env : Env) : List fileData → Int → World → Int × World
  | [], fileID, w => (fileID, w)
  | fdat :: rest, fileID, w =>
    let r := env.execFile w.nExecFile
    let w := { w.emit (.execFile fdat r) with nExecFile := w.nExecFile + 1 }
    match r with
    | .failed _ => newFilesLoop env rest fileID w
    | .ok _ (some _) => newFilesLoop env rest fileID w
    | .ok id none => newFilesLoop env rest (toInt32 id) w

/-- The function `newFiles`: prepare the insert statement (returning 0 when
that fails), run it for every record of the batch and return `fileID`. -/
def newFiles (env : Env) (fdats : List fileData) (w : World) : Int × World :=
  let perr := env.prepareErr w.nPrepare
  let w := { w.emit (.prepare sqlInsertFile perr.isNone) with nPrepare := w.nPrepare + 1 }
  match perr with
  | some _ => (0, w)
  | none => newFilesLoop env fdats 0 w

/-- The function `readDir`: the error of `os.Open` or of `Readdir`, else the
unsorted list of entries. -/
def readDir (dirErr : Option String) (entries : List (FileInfo × FsNode)) :
    Except String (List (FileInfo × FsNode)) :=
  match dirErr with
  | some err => .error err
  | none => .ok entries

mutual
/-- The function `walk`.  The two results of `readDir` are the two branches on
`dirErr`; `walkLoop` is the `for` loop over the listing. -/
def walk (env : Env) (NoHash : Bool) : FsNode → String → Int → Int → World → World
  | .mk lstat content dirErr entries, path, scanID, parentID, w =>
    let w := w.emit (.lstat path)
    match lstat with
    | .error err =>
      let r := checkFile env content path nilInfo (some err) scanID parentID w.stats NoHash
      { w with stats := r.2 }
    | .ok info =>
      let r := checkFile env content path info none scanID parentID w.stats NoHash
      let dirdata := [r.1]
      let n := newFiles env dirdata { w with stats := r.2 }
      let parentID := n.1
      let w := n.2.emit (.readDir path)
      match dirErr with
      | some err =>
        let r := checkFile env content path info (some err) scanID parentID w.stats NoHash
        { w with stats := r.2 }
      | none =>
        let l := walkLoop env NoHash entries path scanID parentID [] w
        (newFiles env l.1 l.2).2
/-- The `for` loop of `walk`: `fdats` is the batch collected so far. -/
def walkLoop (env : Env) (NoHash : Bool) :
    List (FileInfo × FsNode) → String → Int → Int → List fileData → World →
      List fileData × World
  | [], _, _, _, fdats, w => (fdats, w)
  | (fileInfo, child) :: rest, path, scanID, parentID, fdats, w =>
    if fileInfo.mode &&& ModeSymlink = 0 then
      if fileInfo.IsDir then
        walkLoop env NoHash rest path scanID parentID fdats
          (walk env NoHash child (env.join path fileInfo.name) scanID parentID w)
      else
        let r := checkFile env child.content (env.join path fileInfo.name) fileInfo none
          scanID parentID w.stats NoHash
        walkLoop env NoHash rest path scanID parentID (fdats ++ [r.1]) { w with stats := r.2 }
    else
      walkLoop env NoHash rest path scanID parentID fdats w
end

/-- The loop of `Execute` over the configured roots, in the order in which the
map `commonOpt.BaseDirs` is iterated; each root comes with the answers of the
operating system below it. -/
def scanRoots (x : createCommand) (env : Env) : List (String × FsNode) → World → World
  | [], w => w
  | (baseDir, node) :: rest, w =>
    match newScan env baseDir w with
    | (.error _, w) => scanRoots x env rest w
    | (.ok scanID, w) => scanRoots x env rest (walk env x.NoHash node baseDir scanID 0 w)

/-- The method `Execute` of `createCommand`, without CPU profiling
(`commonOpt.CPUProfile` empty).  The result is `none` when the program panics:
after a failed `db.Begin()` the transaction `dbtx` is nil and the next call on
it (`Prepare` or `Commit`) dereferences it. -/
def createCommand.Execute (x : createCommand) (env : Env) (dbname : String)
    (baseDirs : List (String × FsNode)) : Option World :=
  let w : World := { World.init with stats := { World.init.stats with start := env.now } }
  match dbInit env dbname modeCreate w with
  | (some _, w) => some w
  | (none, w) =>
    let w := w.emit .dbBegin
    match env.beginErr with
    | some _ => none
    | none =>
      let w := scanRoots x env baseDirs w
      let w := w.emit .dbCommit
      some (w.emit .dbClose)

/-- The state of `Execute` when its loop over the roots starts: `dbInit` has
run in mode `modeCreate` and the transaction has begun. -/
def afterBegin (env : Env) (dbname : String) : World :=
  (dbInit env dbname modeCreate
    { World.init with stats := { World.init.stats with start := env.now } }).2.emit .dbBegin

/-- The first half of `walk` when `Lstat` succeeded: the record of the path is
built and handed to `newFiles`; the result is the new `parentID` and the state
in which `readDir` is then called. -/
def walkOwn (env : Env) (NoHash : Bool) (content : FileContent) (path : String)
    (info : FileInfo) (scanID parentID : Int) (w : World) : Int × World :=
  newFiles env [(checkFile env content path info none scanID parentID w.stats NoHash).1]
    { w.emit (.lstat path) with
      stats := (checkFile env content path info none scanID parentID w.stats NoHash).2 }

/-! ## Reading the trace -/

/-- The row that an event stores in table `file`, if any: its identifier and
the record written. -/
def rowOf : Event → Option (Int × fileData)
  | .execFile fdat (.ok rowid _) => some (rowid, fdat)
  | _ => none

/-- The rows stored in table `file` by a trace, in insertion order. -/
def rows (t : List Event) : List (Int × fileData) := t.filterMap rowOf

/-- The character code separates words of an SQL statement: space, tab, line
feed, carriage return, comma or a parenthesis. -/
def isSep (c : Nat) : Bool :=
  c = 32 || c = 9 || c = 10 || c = 13 || c = 44 || c = 40 || c = 41

/-- Lower case of an ASCII letter, by character code. -/
def lowerCode (c : Nat) : Nat := if 65 ≤ c ∧ c ≤ 90 then c + 32 else c

/-- Split character codes into lower-cased words; `cur` is the word being read. -/
def tokensAux : List Nat → List Nat → List (List Nat)
  | [], cur => if cur = [] then [] else [cur]
  | c :: cs, cur =>
    if isSep c then (if cur = [] then tokensAux cs [] else cur :: tokensAux cs [])
    else tokensAux cs (cur ++ [lowerCode c])

/-- The words of an SQL statement, in lower case. -/
def sqlTokens (sql : String) : List String :=
  (tokensAux (sql.data.map Char.toNat) []).map fun t => String.mk (t.map Char.ofNat)

/-- What a statement does to the indexes: create the index `name` on the
columns `cols` of `table` unless an index of that name exists, or drop the
index `name` if it exists. -/
inductive IndexOp where
  | create (name table : String) (cols : List String)
  | drop (name : String)
deriving DecidableEq, Repr

/-- Read a statement of SQL as an operation on indexes: `CREATE [UNIQUE] INDEX
IF NOT EXISTS name ON table (cols)` or `DROP INDEX IF EXISTS name`, key words
in any case; any other statement is none. -/
def parseIndexOp (sql : String) : Option IndexOp :=
  match sqlTokens sql with
  | "create" :: "unique" :: "index" :: "if" :: "not" :: "exists" :: name :: "on" :: table ::
      cols => some (.create name table cols)
  | "create" :: "index" :: "if" :: "not" :: "exists" :: name :: "on" :: table :: cols =>
    some (.create name table cols)
  | ["drop", "index", "if", "exists", name] => some (.drop name)
  | _ => none

/-- The index operation of the statement an event runs, whatever its outcome. -/
def indexOpOf : Event → Option IndexOp
  | .exec sql _ => parseIndexOp sql
  | _ => none

/-- The index operations that the statements of a trace ask for, in order. -/
def indexOps (t : List Event) : List IndexOp := t.filterMap indexOpOf

/-- The event is not a failed `db.Exec`. -/
def Event.execOk : Event → Bool
  | .exec _ ok => ok
  | _ => true

/-- The index names after an index operation took effect. -/
def applyIndexOp : IndexOp → List String → List String
  | .create name _ _, cat => if name ∈ cat then cat else cat ++ [name]
  | .drop name, cat => cat.filter fun n => n != name

/-- The index names after one event: a statement that succeeded takes effect,
a failed one changes nothing. -/
def catalogStep (cat : List String) : Event → List String
  | .exec sql true =>
    match parseIndexOp sql with
    | some op => applyIndexOp op cat
    | none => cat
  | _ => cat

/-- The names of the indexes of the store after a trace, from the names `cat`
before it. -/
def catalogAfter (t : List Event) (cat : List String) : List String :=
  t.foldl catalogStep cat

/-- The index operations of the read mode: the three indexes are created, the
digest ones on `(scan_id, md5)` and `(scan_id, sha1)` of table `file`. -/
def listModeOps : List IndexOp :=
  [.create "file_id" "file" ["scan_id", "id"],
   .create "file_md5" "file" ["scan_id", "md5"],
   .create "file_sha1" "file" ["scan_id", "sha1"]]

/-- The index operations of the scan mode: the three indexes are dropped. -/
def createModeOps : List IndexOp :=
  [.drop "file_id", .drop "file_md5", .drop "file_sha1"]

/-- The identifier of the last row a trace stores in table `file`, 0 when it
stores none: the result the specification gives for `append_entries`. -/
def lastRowInserted (t : List Event) : Int :=
  match (rows t).getLast? with
  | some r => r.1
  | none => 0

/-- The answers of the store to the next `n` inserts into table `file`, the
first of them being answer number `start`. -/
def answers (env : Env) (start : Nat) : Nat → List ExecResult
  | 0 => []
  | n + 1 => env.execFile start :: answers env (start + 1) n

/-- The answer reports the identifier of a stored row. -/
def ExecResult.reportsId : ExecResult → Bool
  | .ok _ none => true
  | _ => false

mutual
/-- The metadata of the entries visited below a node, in visiting order: the
root as `Lstat` describes it and, under every entry that is listed, the listed
entries that are not symbolic links (a listed directory as its own `Lstat`
describes it). -/
def visited : FsNode → List FileInfo
  | .mk lstat _ dirErr entries =>
    match lstat with
    | .error _ => []
    | .ok info =>
      match dirErr with
      | some _ => [info]
      | none => info :: visitedList entries
/-- The entries visited below the entries of one listing. -/
def visitedList : List (FileInfo × FsNode) → List FileInfo
  | [] => []
  | (fileInfo, child) :: rest =>
    if fileInfo.isSymlink then visitedList rest
    else if fileInfo.IsDir then visited child ++ visitedList rest
    else fileInfo :: visitedList rest
end

/-- The number of directories visited. -/
def dirsVisited (n : FsNode) : Nat := ((visited n).filter fun f => f.IsDir).length

/-- The number of non-symlink non-directory entries visited. -/
def filesVisited (n : FsNode) : Nat :=
  ((visited n).filter fun f => !f.isSymlink && !f.IsDir).length

/-- The sum of the sizes of the non-symlink non-directory entries visited. -/
def bytesVisited (n : FsNode) : Int :=
  (((visited n).filter fun f => !f.isSymlink && !f.IsDir).map fun f => f.size).sum

/-- The store answered this event well: a `Prepare` succeeded; an insert into
table `file` stored a row and reported its identifier, which lies between 1
and 2^31 - 1.  Other events are not answers of the store to `newFiles`. -/
def Event.storeOk : Event → Bool
  | .prepare _ ok => ok
  | .execFile _ (.ok id none) => decide (0 < id) && decide (id < 2147483648)
  | .execFile _ _ => false
  | _ => true

/-- Every answer of the store in this part of a run was good. -/
def StoreOk (t : List Event) : Prop := ∀ e ∈ t, e.storeOk = true

/-- The event is not a failure of the store: a `Prepare` succeeded; an insert
into table `file` stored a row and reported its identifier, whatever the
identifier. -/
def Event.inserted : Event → Bool
  | .prepare _ ok => ok
  | .execFile _ (.ok _ none) => true
  | .execFile _ _ => false
  | _ => true

/-- The identifiers of the rows are strictly increasing in insertion order. -/
def IdsIncrease (l : List (Int × fileData)) : Prop :=
  List.Pairwise (fun a b => a < b) (l.map Prod.fst)

/-- The parent invariant on the rows one walk inserted, in insertion order:
every row belongs to the scan; the first row (the root) has parent 0; every
later row has a parent other than 0, which is the identifier of a row of the
same scan inserted before it. -/
def ParentLinked (scanID : Int) (l : List (Int × fileData)) : Prop :=
  ∀ (i : Nat) (r : Int × fileData), l[i]? = some r →
    r.2.scanID = scanID ∧ (i = 0 → r.2.parentID = 0) ∧
      (0 < i → r.2.parentID ≠ 0 ∧
        ∃ (j : Nat) (q : Int × fileData),
          j < i ∧ l[j]? = some q ∧ q.1 = r.2.parentID ∧ q.2.scanID = scanID)

/-- Every row belongs to scan `s` and has as parent one of the identifiers
`before` or the identifier of a row that precedes it in the list. -/
def LinksInto (s : Int) : List Int → List (Int × fileData) → Prop
  | _, [] => True
  | before, r :: rest =>
    r.2.scanID = s ∧ r.2.parentID ∈ before ∧ LinksInto s (before ++ [r.1]) rest

/-- The record is the Entry of the path `path`, whose metadata is `info`, in
scan `s` under the parent `p`. -/
def IsEntryOf (env : Env) (path : String) (info : FileInfo) (s p : Int) (e : fileData) :
    Prop :=
  e.scanID = s ∧ e.parentID = p ∧ e.name = env.base path ∧ e.size = info.size ∧
    e.mode = info.mode ∧ e.modtime = info.modTime

/-- The records `l` are the Entries of the files listed in the directory
`path`, in listing order, each under the parent `d`: one for every listed
entry that is neither a symbolic link nor a directory. -/
def FileRecs (env : Env) (s : Int) :
    List (FileInfo × FsNode) → String → Int → List fileData → Prop
  | [], _, _, l => l = []
  | (fileInfo, _) :: rest, path, d, l =>
    if fileInfo.isSymlink then FileRecs env s rest path d l
    else if fileInfo.IsDir then FileRecs env s rest path d l
    else ∃ e tl, l = e :: tl ∧ IsEntryOf env (env.join path fileInfo.name) fileInfo s d e ∧
      FileRecs env s rest path d tl

mutual
/-- The rows `l` are those of the tree at `path` under the parent `p`: nothing
when `Lstat` fails; otherwise first the Entry of `path` itself, with parent
`p`, under some identifier `id`, and then, when the path can be listed, the
rows of the listed directories followed by the Entries of the listed files,
all of them under the parent `id`, the Entry of the directory that contains
them. -/
def TreeRows (env : Env) (s : Int) : FsNode → String → Int → List (Int × fileData) → Prop
  | .mk lstat _ dirErr entries, path, p, l =>
    match lstat with
    | .error _ => l = []
    | .ok info =>
      ∃ id e rest, l = (id, e) :: rest ∧ IsEntryOf env path info s p e ∧
        match dirErr with
        | some _ => rest = []
        | none =>
          ∃ subs files, rest = subs ++ files ∧ SubdirRows env s entries path id subs ∧
            FileRecs env s entries path id (files.map Prod.snd)
/-- The rows `l` are those of the trees of the directories listed in `path`,
in listing order, each tree under the parent `d`. -/
def SubdirRows (env : Env) (s : Int) :
    List (FileInfo × FsNode) → String → Int → List (Int × fileData) → Prop
  | [], _, _, l => l = []
  | (fileInfo, child) :: rest, path, d, l =>
    if fileInfo.isSymlink then SubdirRows env s rest path d l
    else if fileInfo.IsDir then
      ∃ a b, l = a ++ b ∧ TreeRows env s child (env.join path fileInfo.name) d a ∧
        SubdirRows env s rest path d b
    else SubdirRows env s rest path d l
end

/-- One commit per root, as a property of a trace: between the inserts into
table `scan` of any two roots there is a commit. -/
def CommitPerRoot (t : List Event) : Prop :=
  ∀ (pre : List Event) (d1 : String) (t1 : Int) (r1 : ExecResult) (mid : List Event)
    (d2 : String) (t2 : Int) (r2 : ExecResult) (post : List Event),
    t = pre ++ Event.execScan d1 t1 r1 :: mid ++ Event.execScan d2 t2 r2 :: post →
      Event.dbCommit ∈ mid

/-- The event is the `Prepare` with which `newScan` starts. -/
def Event.isScanPrepare : Event → Bool
  | .prepare sql _ => sql == sqlInsertScan
  | _ => false

/-- The directory of an insert into table `scan`. -/
def scanDirOf : Event → Option String
  | .execScan d _ _ => some d
  | _ => none

/-- The event is one that `walk` produces: a system call, or the `Prepare` or
an insert of `newFiles`. -/
def Event.walkOnly : Event → Bool
  | .lstat _ => true
  | .readDir _ => true
  | .execFile _ _ => true
  | .prepare sql _ => sql == sqlInsertFile
  | _ => false

/-- The event belongs to the scan of a root: an event of `walk`, or the
`Prepare` or the insert of `newScan`. -/
def Event.scanPhase : Event → Bool
  | .execScan _ _ _ => true
  | .prepare sql _ => sql == sqlInsertFile || sql == sqlInsertScan
  | e => e.walkOnly

/-- Every successful `newScan` is at once followed by the `Lstat` of its root,
the first step of `walk`. -/
def ScanThenWalk (l : List Event) : Prop :=
  ∀ (pre : List Event) (d : String) (t id : Int) (post : List Event),
    l = pre ++ Event.execScan d t (.ok id none) :: post →
      ∃ post2, post = Event.lstat d :: post2

/-- The events of the loop over the roots `dirs`: only events of the scans, one
`newScan` begun per root, the inserts into table `scan` name roots in order,
and every successful `newScan` is followed by its walk. -/
def ScanBody (dirs : List String) (body : List Event) : Prop :=
  (∀ e ∈ body, e.scanPhase = true) ∧
    (body.filter Event.isScanPrepare).length = dirs.length ∧
    List.Sublist (body.filterMap scanDirOf) dirs ∧
    ScanThenWalk body

/-- The number of non-directory entries among the entries visited. -/
def nonDirsVisited (n : FsNode) : Nat := ((visited n).filter fun f => !f.IsDir).length

/-- The sum of the sizes of the non-directory entries among the entries visited. -/
def nonDirBytesVisited (n : FsNode) : Int :=
  (((visited n).filter fun f => !f.IsDir).map fun f => f.size).sum

/-- The counters `s2` are the counters `s` after the entries `l` were counted,
up to the wrap-around of the machine integers: one directory more per
directory, one file more and its size in bytes per non-directory; and counters
that were within their types stay within them. -/
def Counted (s s2 : perfStats) (l : List FileInfo) : Prop :=
  s2.dirs % 4294967296 = (s.dirs + (l.filter fun f => f.IsDir).length) % 4294967296 ∧
    s2.files % 4294967296 = (s.files + (l.filter fun f => !f.IsDir).length) % 4294967296 ∧
    toInt64 s2.bytes =
      toInt64 (s.bytes + ((l.filter fun f => !f.IsDir).map fun f => f.size).sum) ∧
    s2.start = s.start ∧
    (s.dirs < 4294967296 → s2.dirs < 4294967296) ∧
    (s.files < 4294967296 → s2.files < 4294967296) ∧
    (toInt64 s.bytes = s.bytes → toInt64 s2.bytes = s2.bytes)

/-! ## Concrete inputs -/

/-- The characters after the last slash; `acc` holds those read since the last
slash. -/
def lastComponentAux : List Char → List Char → List Char
  | [], acc => acc
  | c :: cs, acc => if c = '/' then lastComponentAux cs [] else lastComponentAux cs (acc ++ [c])

/-- The last component of a slash-separated path: what `filepath.Base` gives
for the plain relative paths used below. -/
def lastComponent (p : String) : String := String.mk (lastComponentAux p.data [])

/-- A small outside world: paths are joined with a slash, `base` is the last
component, the digests are stand-ins of the right length, every store call
succeeds and the n-th inserted row gets the identifier n+1. -/
def demoEnv : Env :=
  { join := fun a b => a ++ "/" ++ b
    base := lastComponent
    md5sum := fun bs => List.replicate 16 bs.length
    sha1sum := fun bs => List.replicate 20 bs.length
    now := 0
    openErr := none
    beginErr := none
    execErr := fun _ => none
    prepareErr := fun _ => none
    execScan := fun n => .ok (n + 1) none
    execFile := fun n => .ok (n + 1) none }

/-- The metadata of a regular file of three bytes. -/
def demoFileInfo : FileInfo := { name := "a.txt", size := 3, mode := 420, modTime := 7 }

/-- A root path that does not exist. -/
def missingNode : FsNode :=
  .mk (.error "lstat nowhere: no such file or directory")
    (.openFail "open nowhere: no such file or directory")
    (some "open nowhere: no such file or directory") []

/-- The answers at a regular file with the bytes 1, 2, 3. -/
def fileNode : FsNode :=
  .mk (.ok demoFileInfo) (.stream [1, 2, 3] none) (some "readdirent: not a directory") []

/-- The metadata of a directory named `locked`. -/
def lockedInfo : FileInfo := { name := "locked", size := 4096, mode := ModeDir + 448, modTime := 5 }

/-- A directory that cannot be listed (permission denied). -/
def lockedNode : FsNode :=
  .mk (.ok lockedInfo) (.openFail "open locked: permission denied")
    (some "open locked: permission denied") [(demoFileInfo, fileNode)]

/-- The metadata `Lstat` gives for a symbolic link named `link`. -/
def linkInfo : FileInfo := { name := "link", size := 6, mode := ModeSymlink + 511, modTime := 9 }

/-- A root path that is a symbolic link to a directory holding `a.txt`:
`Lstat` describes the link itself, while `os.Open` follows it, so the listing
is that of the target and reading the opened directory as a file fails. -/
def linkNode : FsNode :=
  .mk (.ok linkInfo) (.stream [] (some "read link: is a directory")) none
    [(demoFileInfo, fileNode)]

/-- A store like that of `demoEnv` whose table `file` has reached the
identifier 2^31 - 1: the next rows get 2^31, 2^31 + 1, and so on. -/
def bigIdEnv : Env :=
  { demoEnv with execFile := fun n => .ok (2147483648 + n) none }

/-- A store that opens and then refuses every statement of `dbInit`, as a
database file without write permission does. -/
def readOnlyEnv : Env :=
  { demoEnv with execErr := fun _ => some "attempt to write a readonly database" }

/-- The metadata of a directory named `r`. -/
def rootInfo : FileInfo := { name := "r", size := 4096, mode := ModeDir + 493, modTime := 3 }

/-- A directory holding the regular file `a.txt`. -/
def dirNode : FsNode :=
  .mk (.ok rootInfo) (.stream [] (some "read r: is a directory")) none
    [(demoFileInfo, fileNode)]

/-- The record `checkFile` builds for `a.txt` under the parent 1 in scan 1. -/
def demoRecord : fileData :=
  (checkFile demoEnv fileNode.content "r/a.txt" demoFileInfo none 1 1 World.init.stats false).1

/-- The metadata of a directory named `d`. -/
def subdirInfo : FileInfo := { name := "d", size := 4096, mode := ModeDir + 493, modTime := 4 }

/-- The metadata of a regular file `b.txt` of three bytes. -/
def otherFileInfo : FileInfo := { name := "b.txt", size := 3, mode := 420, modTime := 8 }

/-- The directory `r` holding the directory `d`, which holds `b.txt`, and the
file `a.txt`. -/
def nestedNode : FsNode :=
  .mk (.ok rootInfo) (.stream [] (some "read r: is a directory")) none
    [(subdirInfo,
        .mk (.ok subdirInfo) (.stream [] (some "read r/d: is a directory")) none
          [(otherFileInfo, fileNode)]),
     (demoFileInfo, fileNode)]

/-- Two configured roots, in the order in which the map yields them. -/
def twoRoots : List (String × FsNode) := [("r", dirNode), ("locked", lockedNode)]

/-! ## Theorems -/

theorem int_land_zero (m : Int) : Int.land m 0 = 0 := by
  cases m with
  | ofNat n => simp [Int.land]
  | negSucc n => simp [Int.land, Nat.ldiff]

theorem parse_pragma : parseIndexOp sqlPragma = none := by decide

theorem parse_createScan : parseIndexOp sqlCreateScan = none := by decide

theorem parse_createFile : parseIndexOp sqlCreateFile = none := by decide

theorem parse_createIdxId :
    parseIndexOp sqlCreateIdxId = some (.create "file_id" "file" ["scan_id", "id"]) := by
  decide

theorem parse_createIdxMd5 :
    parseIndexOp sqlCreateIdxMd5 = some (.create "file_md5" "file" ["scan_id", "md5"]) := by
  decide

theorem parse_createIdxSha1 :
    parseIndexOp sqlCreateIdxSha1 = some (.create "file_sha1" "file" ["scan_id", "sha1"]) := by
  decide

theorem parse_dropIdxId : parseIndexOp sqlDropIdxId = some (.drop "file_id") := by decide

theorem parse_dropIdxMd5 : parseIndexOp sqlDropIdxMd5 = some (.drop "file_md5") := by decide

theorem parse_dropIdxSha1 : parseIndexOp sqlDropIdxSha1 = some (.drop "file_sha1") := by decide

theorem mem_create_self (name table : String) (cols : List String) (cat : List String) :
    name ∈ applyIndexOp (.create name table cols) cat := by
  unfold applyIndexOp
  by_cases h : name ∈ cat
  · simp [h]
  · simp [h]

theorem mem_create_of_mem (m name table : String) (cols : List String) (cat : List String)
    (h : m ∈ cat) : m ∈ applyIndexOp (.create name table cols) cat := by
  unfold applyIndexOp
  by_cases hn : name ∈ cat
  · simpa [hn] using h
  · simp [hn, h]

theorem not_mem_drop_self (name : String) (cat : List String) :
    name ∉ applyIndexOp (.drop name) cat := by
  simp [applyIndexOp]

theorem not_mem_drop_of_not_mem (m name : String) (cat : List String) (h : m ∉ cat) :
    m ∉ applyIndexOp (.drop name) cat := by
  simp only [applyIndexOp, List.mem_filter, not_and]
  intro hm
  exact absurd hm h

theorem dbInit_trace (env : Env) (dbname : String) (mode : Int) (w : World)
    (hopen : env.openErr = none) :
    (dbInit env dbname mode w).1 = none ∧
      (dbInit env dbname mode w).2.trace =
        w.trace ++ Event.sqlOpen dbname ::
          Event.exec sqlPragma (env.execErr w.nExec).isNone ::
          Event.exec sqlCreateScan (env.execErr (w.nExec + 1)).isNone ::
          Event.exec sqlCreateFile (env.execErr (w.nExec + 2)).isNone ::
          (if Int.land mode modeList = modeList then
            [Event.exec sqlCreateIdxId (env.execErr (w.nExec + 3)).isNone,
             Event.exec sqlCreateIdxMd5 (env.execErr (w.nExec + 4)).isNone,
             Event.exec sqlCreateIdxSha1 (env.execErr (w.nExec + 5)).isNone]
          else
            [Event.exec sqlDropIdxId (env.execErr (w.nExec + 3)).isNone,
             Event.exec sqlDropIdxMd5 (env.execErr (w.nExec + 4)).isNone,
             Event.exec sqlDropIdxSha1 (env.execErr (w.nExec + 5)).isNone]) := by
  have h0 : Int.land mode modeCreate = modeCreate := int_land_zero mode
  by_cases h1 : Int.land mode modeList = modeList
  · simp [dbInit, hopen, h1, execsql, World.emit]
  · simp [dbInit, hopen, h1, h0, execsql, World.emit]

/-- C10, as amended. Whenever `dbInit` opens the store it reports no error and
runs, after the set-up statements, the statements of exactly one branch: those
that create the indexes `file_md5` on `(scan_id, md5)` and `file_sha1` on
`(scan_id, sha1)` (and `file_id`) and drop none, exactly when the low bit of
`mode` is set, so for `modeList`; otherwise, so for `modeCreate`, those that
drop the three indexes and create none.  When every statement succeeds the
two digest indexes exist afterwards in the first case and do not exist in the
second, whatever indexes existed before. -/
theorem dbInit_index_policy (env : Env) (dbname : String) (mode : Int) (w : World)
    (hopen : env.openErr = none) :
    ∃ ext, (dbInit env dbname mode w).2.trace = w.trace ++ ext ∧
      (dbInit env dbname mode w).1 = none ∧
      (mode = modeList → indexOps ext = listModeOps) ∧
      (mode = modeCreate → indexOps ext = createModeOps) ∧
      (indexOps ext = listModeOps ∨ indexOps ext = createModeOps) ∧
      (indexOps ext = listModeOps ↔ Int.land mode modeList = modeList) ∧
      (indexOps ext = createModeOps ↔ ¬ Int.land mode modeList = modeList) ∧
      (∀ cat : List String, (∀ e ∈ ext, e.execOk = true) →
        (indexOps ext = listModeOps →
          "file_md5" ∈ catalogAfter ext cat ∧ "file_sha1" ∈ catalogAfter ext cat) ∧
        (indexOps ext = createModeOps →
          "file_md5" ∉ catalogAfter ext cat ∧ "file_sha1" ∉ catalogAfter ext cat)) := by
  obtain ⟨hres, htrace⟩ := dbInit_trace env dbname mode w hopen
  have hne : listModeOps ≠ createModeOps := by decide
  by_cases h1 : Int.land mode modeList = modeList
  · rw [if_pos h1] at htrace
    have hops : indexOps (Event.sqlOpen dbname ::
          Event.exec sqlPragma (env.execErr w.nExec).isNone ::
          Event.exec sqlCreateScan (env.execErr (w.nExec + 1)).isNone ::
          Event.exec sqlCreateFile (env.execErr (w.nExec + 2)).isNone ::
          [Event.exec sqlCreateIdxId (env.execErr (w.nExec + 3)).isNone,
           Event.exec sqlCreateIdxMd5 (env.execErr (w.nExec + 4)).isNone,
           Event.exec sqlCreateIdxSha1 (env.execErr (w.nExec + 5)).isNone]) = listModeOps := by
      simp [indexOps, indexOpOf, parse_pragma, parse_createScan, parse_createFile,
        parse_createIdxId, parse_createIdxMd5, parse_createIdxSha1, listModeOps]
    refine ⟨_, htrace, hres, fun _ => hops, ?_, Or.inl hops, ?_, ?_, ?_⟩
    · intro hm
      subst hm
      exact absurd h1 (by decide)
    · exact ⟨fun _ => h1, fun _ => hops⟩
    · rw [hops]
      exact ⟨fun h => absurd h hne, fun h => absurd h1 h⟩
    · intro cat hok
      have k3 := hok (Event.exec sqlCreateIdxId (env.execErr (w.nExec + 3)).isNone) (by simp)
      have k4 := hok (Event.exec sqlCreateIdxMd5 (env.execErr (w.nExec + 4)).isNone) (by simp)
      have k5 := hok (Event.exec sqlCreateIdxSha1 (env.execErr (w.nExec + 5)).isNone) (by simp)
      simp only [Event.execOk] at k3 k4 k5
      refine ⟨fun _ => ?_, fun h => absurd (hops.symm.trans h) hne⟩
      have hcat : catalogAfter (Event.sqlOpen dbname ::
          Event.exec sqlPragma (env.execErr w.nExec).isNone ::
          Event.exec sqlCreateScan (env.execErr (w.nExec + 1)).isNone ::
          Event.exec sqlCreateFile (env.execErr (w.nExec + 2)).isNone ::
          [Event.exec sqlCreateIdxId (env.execErr (w.nExec + 3)).isNone,
           Event.exec sqlCreateIdxMd5 (env.execErr (w.nExec + 4)).isNone,
           Event.exec sqlCreateIdxSha1 (env.execErr (w.nExec + 5)).isNone]) cat =
          applyIndexOp (.create "file_sha1" "file" ["scan_id", "sha1"])
            (applyIndexOp (.create "file_md5" "file" ["scan_id", "md5"])
              (applyIndexOp (.create "file_id" "file" ["scan_id", "id"]) cat)) := by
        rw [k3, k4, k5]
        cases (env.execErr w.nExec).isNone <;> cases (env.execErr (w.nExec + 1)).isNone <;>
          cases (env.execErr (w.nExec + 2)).isNone <;>
          simp [catalogAfter, catalogStep, parse_pragma, parse_createScan, parse_createFile,
            parse_createIdxId, parse_createIdxMd5, parse_createIdxSha1]
      rw [hcat]
      exact ⟨mem_create_of_mem _ _ _ _ _ (mem_create_self _ _ _ _), mem_create_self _ _ _ _⟩
  · rw [if_neg h1] at htrace
    have hops : indexOps (Event.sqlOpen dbname ::
          Event.exec sqlPragma (env.execErr w.nExec).isNone ::
          Event.exec sqlCreateScan (env.execErr (w.nExec + 1)).isNone ::
          Event.exec sqlCreateFile (env.execErr (w.nExec + 2)).isNone ::
          [Event.exec sqlDropIdxId (env.execErr (w.nExec + 3)).isNone,
           Event.exec sqlDropIdxMd5 (env.execErr (w.nExec + 4)).isNone,
           Event.exec sqlDropIdxSha1 (env.execErr (w.nExec + 5)).isNone]) = createModeOps := by
      simp [indexOps, indexOpOf, parse_pragma, parse_createScan, parse_createFile,
        parse_dropIdxId, parse_dropIdxMd5, parse_dropIdxSha1, createModeOps]
    refine ⟨_, htrace, hres, ?_, fun _ => hops, Or.inr hops, ?_, ?_, ?_⟩
    · intro hm
      subst hm
      exact absurd (by decide) h1
    · rw [hops]
      exact ⟨fun h => absurd h.symm hne, fun h => absurd h h1⟩
    · exact ⟨fun _ => h1, fun _ => hops⟩
    · intro cat hok
      have k3 := hok (Event.exec sqlDropIdxId (env.execErr (w.nExec + 3)).isNone) (by simp)
      have k4 := hok (Event.exec sqlDropIdxMd5 (env.execErr (w.nExec + 4)).isNone) (by simp)
      have k5 := hok (Event.exec sqlDropIdxSha1 (env.execErr (w.nExec + 5)).isNone) (by simp)
      simp only [Event.execOk] at k3 k4 k5
      refine ⟨fun h => absurd (h.symm.trans hops) hne, fun _ => ?_⟩
      have hcat : catalogAfter (Event.sqlOpen dbname ::
          Event.exec sqlPragma (env.execErr w.nExec).isNone ::
          Event.exec sqlCreateScan (env.execErr (w.nExec + 1)).isNone ::
          Event.exec sqlCreateFile (env.execErr (w.nExec + 2)).isNone ::
          [Event.exec sqlDropIdxId (env.execErr (w.nExec + 3)).isNone,
           Event.exec sqlDropIdxMd5 (env.execErr (w.nExec + 4)).isNone,
           Event.exec sqlDropIdxSha1 (env.execErr (w.nExec + 5)).isNone]) cat =
          applyIndexOp (.drop "file_sha1")
            (applyIndexOp (.drop "file_md5") (applyIndexOp (.drop "file_id") cat)) := by
        rw [k3, k4, k5]
        cases (env.execErr w.nExec).isNone <;> cases (env.execErr (w.nExec + 1)).isNone <;>
          cases (env.execErr (w.nExec + 2)).isNone <;>
          simp [catalogAfter, catalogStep, parse_pragma, parse_createScan, parse_createFile,
            parse_dropIdxId, parse_dropIdxMd5, parse_dropIdxSha1]
      rw [hcat]
      exact ⟨not_mem_drop_of_not_mem _ _ _ (not_mem_drop_self _ _), not_mem_drop_self _ _⟩

/-- Witness for C10 as amended: the store of `demoEnv` opens, in mode
`modeCreate`. -/
theorem dbInit_index_policy_witness :
    demoEnv.openErr = none ∧
    ∃ ext, (dbInit demoEnv "cf.db" modeCreate World.init).2.trace = World.init.trace ++ ext ∧
      (dbInit demoEnv "cf.db" modeCreate World.init).1 = none ∧
      (modeCreate = modeList → indexOps ext = listModeOps) ∧
      (modeCreate = modeCreate → indexOps ext = createModeOps) ∧
      (indexOps ext = listModeOps ∨ indexOps ext = createModeOps) ∧
      (indexOps ext = listModeOps ↔ Int.land modeCreate modeList = modeList) ∧
      (indexOps ext = createModeOps ↔ ¬ Int.land modeCreate modeList = modeList) ∧
      (∀ cat : List String, (∀ e ∈ ext, e.execOk = true) →
        (indexOps ext = listModeOps →
          "file_md5" ∈ catalogAfter ext cat ∧ "file_sha1" ∈ catalogAfter ext cat) ∧
        (indexOps ext = createModeOps →
          "file_md5" ∉ catalogAfter ext cat ∧ "file_sha1" ∉ catalogAfter ext cat)) :=
  ⟨rfl, dbInit_index_policy demoEnv "cf.db" modeCreate World.init rfl⟩

/-- C10, counterexample. The store of `readOnlyEnv` opens and `dbInit` reports
no error in mode `modeList`, the create statements are run, and every one
fails: starting from a store without indexes, neither `file_md5` nor
`file_sha1` exists afterwards. -/
theorem dbInit_index_not_created :
    readOnlyEnv.openErr = none ∧
      (dbInit readOnlyEnv "cf.db" modeList World.init).1 = none ∧
      indexOps (dbInit readOnlyEnv "cf.db" modeList World.init).2.trace = listModeOps ∧
      "file_md5" ∉ catalogAfter (dbInit readOnlyEnv "cf.db" modeList World.init).2.trace [] ∧
      "file_sha1" ∉ catalogAfter (dbInit readOnlyEnv "cf.db" modeList World.init).2.trace [] := by
  decide

/-- The digests of a non-directory file checked with no incoming error: both
are present exactly when hashing is enabled and `hashFile` reports no error;
otherwise both are absent; so one digest is present exactly when the other is.
With hashing enabled, `hashFile` reports an error exactly when the record
carries the error flag; and `hashFile` reports no error exactly when the file
could be opened, whether or not it could then be read to its end. -/
theorem checkFile_digests_iff (env : Env) (c : FileContent) (fpath : String) (f : FileInfo)
    (scanID parentID : Int) (stats : perfStats) (NoHash : Bool) (hfile : f.IsDir = false) :
    (((checkFile env c fpath f none scanID parentID stats NoHash).1.md5.isSome ∧
        (checkFile env c fpath f none scanID parentID stats NoHash).1.sha1.isSome) ↔
      (NoHash = false ∧ (hashFile env c).1 = none)) ∧
    (¬ (NoHash = false ∧ (hashFile env c).1 = none) →
      (checkFile env c fpath f none scanID parentID stats NoHash).1.md5 = none ∧
        (checkFile env c fpath f none scanID parentID stats NoHash).1.sha1 = none) ∧
    ((checkFile env c fpath f none scanID parentID stats NoHash).1.md5.isSome ↔
      (checkFile env c fpath f none scanID parentID stats NoHash).1.sha1.isSome) ∧
    (NoHash = false →
      ((hashFile env c).1 = none ↔
        (checkFile env c fpath f none scanID parentID stats NoHash).1.status &&& fsError = 0)) ∧
    ((hashFile env c).1 = none ↔ ∃ bytes readErr, c = .stream bytes readErr) := by
  cases NoHash <;> cases c <;> simp [checkFile, hfile, hashFile, fsError, fsNoHash]

/-- C1, what the code does. The regular file `a.txt` opens and its read stops
with an error after two bytes; hashing is enabled.  A hashing error occurred,
yet the record carries both digests, those of the two bytes read. -/
theorem checkFile_digests_after_read_error :
    demoFileInfo.IsDir = false ∧
      (checkFile demoEnv (.stream [1, 2] (some "read r/a.txt: input/output error")) "r/a.txt"
        demoFileInfo none 1 1 World.init.stats false).1.md5 = some (demoEnv.md5sum [1, 2]) ∧
      (checkFile demoEnv (.stream [1, 2] (some "read r/a.txt: input/output error")) "r/a.txt"
        demoFileInfo none 1 1 World.init.stats false).1.sha1 = some (demoEnv.sha1sum [1, 2]) := by
  decide

/-- C6, what the code does. When the open succeeds and the copy stops with a
read error, `hashFile` returns a nil error together with both sums (of the
bytes read before the error); for the regular file `a.txt`, `checkFile` then
leaves the status at 0, the error flag clear. -/
theorem hashFile_read_error_unreported (env : Env) (bytes : List Nat) (readErr : String)
    (fpath : String) (scanID parentID : Int) (stats : perfStats) :
    hashFile env (.stream bytes (some readErr)) =
        (none, some (env.md5sum bytes), some (env.sha1sum bytes)) ∧
      (checkFile env (.stream bytes (some readErr)) fpath demoFileInfo none scanID parentID
        stats false).1.status = 0 := by
  have hfile : demoFileInfo.IsDir = false := by decide
  refine ⟨rfl, ?_⟩
  simp [checkFile, hfile, hashFile]

/-- C4, what the code does. When `Lstat` fails, `walk` builds the error record
and drops it: the only thing that happens is the `Lstat` call itself; no row is
stored, nothing is prepared, the path is not listed and the counters stay. -/
theorem walk_lstat_failure_stores_nothing (env : Env) (NoHash : Bool) (err : String)
    (content : FileContent) (dirErr : Option String) (entries : List (FileInfo × FsNode))
    (path : String) (scanID parentID : Int) (w : World) :
    walk env NoHash (.mk (.error err) content dirErr entries) path scanID parentID w =
        w.emit (.lstat path) ∧
      rows (walk env NoHash (.mk (.error err) content dirErr entries) path scanID parentID
        w).trace = rows w.trace ∧
      (checkFile env content path nilInfo (some err) scanID parentID w.stats NoHash).1.status
        = fsError := by
  refine ⟨?_, ?_, ?_⟩
  · simp [walk, checkFile, World.emit]
  · simp [walk, checkFile, World.emit, rows, rowOf]
  · simp [checkFile]

/-- C5, what the code does. For the directory `locked`, whose listing fails,
the one row stored is the one written before the listing was tried, and its
status is 0: the error flag is not set on it.  The record that `checkFile`
builds for the failure carries the flag and is dropped. -/
theorem walk_listing_failure_unflagged :
    lockedInfo.IsDir = true ∧
      readDir (some "open locked: permission denied") [(demoFileInfo, fileNode)] =
        .error "open locked: permission denied" ∧
      rows (walk demoEnv false lockedNode "locked" 1 0 World.init).trace =
        [(1, { scanID := 1, id := 0, parentID := 0, name := "locked", status := 0,
               size := 4096, mode := ModeDir + 448, modtime := 5, md5 := none, sha1 := none })] ∧
      (checkFile demoEnv lockedNode.content "locked" lockedInfo
        (some "open locked: permission denied") 1 1 World.init.stats false).1.status = fsError := by
  refine ⟨by decide, rfl, by decide, by decide⟩

/-- C2, what the code does. For a root path that is a symbolic link to a
directory, `walk` stores a row for the link and lists it: the file `a.txt` of
the target is stored under the link. -/
theorem walk_root_symlink_followed :
    linkInfo.isSymlink = true ∧
      Event.readDir "link" ∈ (walk demoEnv false linkNode "link" 1 0 World.init).trace ∧
      (rows (walk demoEnv false linkNode "link" 1 0 World.init).trace).map
        (fun r => (r.1, r.2.parentID, r.2.name, r.2.mode)) =
        [(1, 0, "link", ModeSymlink + 511), (2, 1, "a.txt", 420)] := by
  decide

/-- C9, what the code does. For a root path that is a symbolic link to a
directory holding one file of 3 bytes, the counters show 2 files and 9 bytes,
while 1 non-symlink non-directory entry of 3 bytes was visited. -/
theorem walk_root_symlink_counted :
    (walk demoEnv false linkNode "link" 1 0 World.init).stats.files = 2 ∧
      filesVisited linkNode = 1 ∧
      (walk demoEnv false linkNode "link" 1 0 World.init).stats.bytes = 9 ∧
      bytesVisited linkNode = 3 ∧
      (walk demoEnv false linkNode "link" 1 0 World.init).stats.dirs = 0 ∧
      dirsVisited linkNode = 0 := by
  decide

/-! ### The batch insert -/

theorem toInt32_of_fits (id : Int) (hlo : -2147483648 ≤ id) (hhi : id < 2147483648) :
    toInt32 id = id := by
  unfold toInt32
  have h : (id + 2147483648) % 4294967296 = id + 2147483648 :=
    Int.emod_eq_of_lt (by omega) (by omega)
  omega

theorem answers_length (env : Env) : ∀ (n start : Nat), (answers env start n).length = n
  | 0, _ => rfl
  | n + 1, start => by simp [answers, answers_length env n]

theorem newFilesLoop_spec (env : Env) : ∀ (fdats : List fileData) (fileID : Int) (w : World),
    (newFilesLoop env fdats fileID w).2.trace =
        w.trace ++ List.zipWith Event.execFile fdats (answers env w.nExecFile fdats.length) ∧
      (newFilesLoop env fdats fileID w).2.stats = w.stats ∧
      ((∀ r ∈ answers env w.nExecFile fdats.length, r.reportsId = false) →
        (newFilesLoop env fdats fileID w).1 = fileID) ∧
      (∀ pre id post, answers env w.nExecFile fdats.length = pre ++ .ok id none :: post →
        (∀ r ∈ post, r.reportsId = false) →
        (newFilesLoop env fdats fileID w).1 = toInt32 id)
  | [], fileID, w => by
    simp [newFilesLoop, answers]
  | fdat :: rest, fileID, w => by
    have hstep : ∀ fid : Int,
        (newFilesLoop env rest fid
            { w.emit (.execFile fdat (env.execFile w.nExecFile)) with
              nExecFile := w.nExecFile + 1 }).2.trace =
          w.trace ++ Event.execFile fdat (env.execFile w.nExecFile) ::
            List.zipWith Event.execFile rest (answers env (w.nExecFile + 1) rest.length) := by
      intro fid
      have h := (newFilesLoop_spec env rest fid
        { w.emit (.execFile fdat (env.execFile w.nExecFile)) with
          nExecFile := w.nExecFile + 1 }).1
      simpa [World.emit] using h
    have hstats : ∀ fid : Int,
        (newFilesLoop env rest fid
            { w.emit (.execFile fdat (env.execFile w.nExecFile)) with
              nExecFile := w.nExecFile + 1 }).2.stats = w.stats := by
      intro fid
      have h := (newFilesLoop_spec env rest fid
        { w.emit (.execFile fdat (env.execFile w.nExecFile)) with
          nExecFile := w.nExecFile + 1 }).2.1
      simpa [World.emit] using h
    have hnone : ∀ fid : Int,
        (∀ r ∈ answers env (w.nExecFile + 1) rest.length, r.reportsId = false) →
        (newFilesLoop env rest fid
            { w.emit (.execFile fdat (env.execFile w.nExecFile)) with
              nExecFile := w.nExecFile + 1 }).1 = fid := by
      intro fid hall
      have h := (newFilesLoop_spec env rest fid
        { w.emit (.execFile fdat (env.execFile w.nExecFile)) with
          nExecFile := w.nExecFile + 1 }).2.2.1
      exact h hall
    have hlast : ∀ (fid : Int) pre id post,
        answers env (w.nExecFile + 1) rest.length = pre ++ .ok id none :: post →
        (∀ r ∈ post, r.reportsId = false) →
        (newFilesLoop env rest fid
            { w.emit (.execFile fdat (env.execFile w.nExecFile)) with
              nExecFile := w.nExecFile + 1 }).1 = toInt32 id := by
      intro fid pre id post hdec hall
      have h := (newFilesLoop_spec env rest fid
        { w.emit (.execFile fdat (env.execFile w.nExecFile)) with
          nExecFile := w.nExecFile + 1 }).2.2.2
      exact h pre id post hdec hall
    have hans : answers env w.nExecFile (fdat :: rest).length =
        env.execFile w.nExecFile :: answers env (w.nExecFile + 1) rest.length := rfl
    rw [hans]
    cases hr : env.execFile w.nExecFile with
    | failed e =>
      rw [hr] at hstep hstats hnone hlast hans
      refine ⟨?_, ?_, ?_, ?_⟩
      · simpa [newFilesLoop, hr, hans] using hstep fileID
      · simpa [newFilesLoop, hr] using hstats fileID
      · intro hall
        simpa [newFilesLoop, hr] using hnone fileID
          (fun r hmem => hall r (List.mem_cons_of_mem _ hmem))
      · intro pre id post hdec hall
        cases pre with
        | nil => simp at hdec
        | cons p pre =>
          simp only [List.cons_append, List.cons.injEq] at hdec
          simpa [newFilesLoop, hr] using hlast fileID pre id post hdec.2 hall
    | ok rowid idErr =>
      cases idErr with
      | some e =>
        rw [hr] at hstep hstats hnone hlast hans
        refine ⟨?_, ?_, ?_, ?_⟩
        · simpa [newFilesLoop, hr, hans] using hstep fileID
        · simpa [newFilesLoop, hr] using hstats fileID
        · intro hall
          simpa [newFilesLoop, hr] using hnone fileID
            (fun r hmem => hall r (List.mem_cons_of_mem _ hmem))
        · intro pre id post hdec hall
          cases pre with
          | nil => simp at hdec
          | cons p pre =>
            simp only [List.cons_append, List.cons.injEq] at hdec
            simpa [newFilesLoop, hr] using hlast fileID pre id post hdec.2 hall
      | none =>
        rw [hr] at hstep hstats hnone hlast hans
        refine ⟨?_, ?_, ?_, ?_⟩
        · simpa [newFilesLoop, hr, hans] using hstep (toInt32 rowid)
        · simpa [newFilesLoop, hr] using hstats (toInt32 rowid)
        · intro hall
          have := hall (.ok rowid none) (List.mem_cons_self _ _)
          simp [ExecResult.reportsId] at this
        · intro pre id post hdec hall
          cases pre with
          | nil =>
            simp only [List.nil_append, List.cons.injEq, ExecResult.ok.injEq, and_true] at hdec
            obtain ⟨hid, hpost⟩ := hdec
            subst hid
            subst hpost
            simpa [newFilesLoop, hr] using hnone (toInt32 rowid) hall
          | cons p pre =>
            simp only [List.cons_append, List.cons.injEq] at hdec
            simpa [newFilesLoop, hr] using hlast (toInt32 rowid) pre id post hdec.2 hall

theorem newFiles_trace (env : Env) (fdats : List fileData) (w : World)
    (hprep : env.prepareErr w.nPrepare = none) :
    (newFiles env fdats w).2.trace =
      w.trace ++ Event.prepare sqlInsertFile true ::
        List.zipWith Event.execFile fdats (answers env w.nExecFile fdats.length) := by
  have h := (newFilesLoop_spec env fdats 0
    { w.emit (.prepare sqlInsertFile true) with nPrepare := w.nPrepare + 1 }).1
  simpa [newFiles, hprep, World.emit] using h

/-- C8, as amended. With the statement prepared, `newFiles` runs one insert per
record, in batch order, each answered by the next answer of the store, whatever
the earlier answers were; the result is 0 when no answer reports an identifier,
and otherwise the identifier reported by the last answer that reports one,
converted to `int32` (so the identifier itself when it fits `int32`). -/
theorem newFiles_batch (env : Env) (fdats : List fileData) (w : World)
    (hprep : env.prepareErr w.nPrepare = none) :
    (newFiles env fdats w).2.trace =
        w.trace ++ Event.prepare sqlInsertFile true ::
          List.zipWith Event.execFile fdats (answers env w.nExecFile fdats.length) ∧
      (answers env w.nExecFile fdats.length).length = fdats.length ∧
      ((∀ r ∈ answers env w.nExecFile fdats.length, r.reportsId = false) →
        (newFiles env fdats w).1 = 0) ∧
      (∀ pre id post, answers env w.nExecFile fdats.length = pre ++ .ok id none :: post →
        (∀ r ∈ post, r.reportsId = false) →
        (newFiles env fdats w).1 = toInt32 id ∧
          (-2147483648 ≤ id → id < 2147483648 → (newFiles env fdats w).1 = id)) := by
  have h := newFilesLoop_spec env fdats 0
    { w.emit (.prepare sqlInsertFile true) with nPrepare := w.nPrepare + 1 }
  obtain ⟨htrace, -, hnone, hlast⟩ := h
  refine ⟨?_, answers_length env _ _, ?_, ?_⟩
  · simpa [newFiles, hprep, World.emit] using htrace
  · intro hall
    simpa [newFiles, hprep, World.emit] using hnone hall
  · intro pre id post hdec hall
    have hres : (newFiles env fdats w).1 = toInt32 id := by
      simpa [newFiles, hprep, World.emit] using hlast pre id post hdec hall
    exact ⟨hres, fun hlo hhi => by rw [hres, toInt32_of_fits id hlo hhi]⟩

/-- Witness for C8 as amended: one record inserted into the store of `demoEnv`. -/
theorem newFiles_batch_witness :
    demoEnv.prepareErr World.init.nPrepare = none ∧
      (newFiles demoEnv [demoRecord] World.init).2.trace =
        World.init.trace ++ Event.prepare sqlInsertFile true ::
          List.zipWith Event.execFile [demoRecord]
            (answers demoEnv World.init.nExecFile [demoRecord].length) :=
  ⟨rfl, (newFiles_batch demoEnv [demoRecord] World.init rfl).1⟩

/-- C8, counterexample. In a store whose next identifier is 2^31 the batch of
one record is stored under 2^31, and `newFiles` returns -2^31, which is not the
identifier of the last row inserted. -/
theorem newFiles_result_wraps :
    bigIdEnv.prepareErr World.init.nPrepare = none ∧
      rows (newFiles bigIdEnv [demoRecord] World.init).2.trace = [(2147483648, demoRecord)] ∧
      (newFiles bigIdEnv [demoRecord] World.init).1 = -2147483648 ∧
      (newFiles bigIdEnv [demoRecord] World.init).1 ≠
        lastRowInserted (newFiles bigIdEnv [demoRecord] World.init).2.trace := by
  decide

/-! ### The parent links -/

theorem StoreOk_append (a b : List Event) : StoreOk (a ++ b) ↔ StoreOk a ∧ StoreOk b := by
  unfold StoreOk
  constructor
  · intro h
    exact ⟨fun e he => h e (List.mem_append_left _ he), fun e he => h e (List.mem_append_right _ he)⟩
  · rintro ⟨ha, hb⟩ e he
    rcases List.mem_append.1 he with h | h
    · exact ha e h
    · exact hb e h

theorem rows_append (a b : List Event) : rows (a ++ b) = rows a ++ rows b := by
  simp [rows, List.filterMap_append]

theorem rows_pos (t : List Event) (hok : StoreOk t) : ∀ r ∈ rows t, 0 < r.1 := by
  intro r hr
  unfold rows at hr
  obtain ⟨e, he, hrow⟩ := List.mem_filterMap.1 hr
  have hgood := hok e he
  cases e with
  | execFile fdat res =>
    cases res with
    | failed err => simp [rowOf] at hrow
    | ok id idErr =>
      cases idErr with
      | some x => simp [Event.storeOk] at hgood
      | none =>
        simp only [rowOf, Option.some.injEq] at hrow
        subst hrow
        simp only [Event.storeOk, Bool.and_eq_true, decide_eq_true_eq] at hgood
        exact hgood.1
  | lstat _ => simp [rowOf] at hrow
  | readDir _ => simp [rowOf] at hrow
  | sqlOpen _ => simp [rowOf] at hrow
  | exec _ _ => simp [rowOf] at hrow
  | dbBegin => simp [rowOf] at hrow
  | prepare _ _ => simp [rowOf] at hrow
  | execScan _ _ _ => simp [rowOf] at hrow
  | dbCommit => simp [rowOf] at hrow
  | dbClose => simp [rowOf] at hrow

theorem LinksInto_mono (s : Int) : ∀ (l : List (Int × fileData)) (b b2 : List Int),
    (∀ x ∈ b, x ∈ b2) → LinksInto s b l → LinksInto s b2 l
  | [], _, _, _, _ => trivial
  | r :: rest, b, b2, hsub, h => by
    obtain ⟨hs, hp, hrest⟩ := h
    refine ⟨hs, hsub _ hp, LinksInto_mono s rest (b ++ [r.1]) (b2 ++ [r.1]) ?_ hrest⟩
    intro x hx
    rcases List.mem_append.1 hx with h1 | h1
    · exact List.mem_append_left _ (hsub x h1)
    · exact List.mem_append_right _ h1

theorem LinksInto_append (s : Int) : ∀ (a c : List (Int × fileData)) (b : List Int),
    LinksInto s b a → LinksInto s b c → LinksInto s b (a ++ c)
  | [], c, b, _, hc => by simpa using hc
  | r :: rest, c, b, ha, hc => by
    obtain ⟨hs, hp, hrest⟩ := ha
    refine ⟨hs, hp, LinksInto_append s rest c (b ++ [r.1]) hrest ?_⟩
    exact LinksInto_mono s c b (b ++ [r.1]) (fun x hx => List.mem_append_left _ hx) hc

theorem LinksInto_of_parent (s p : Int) : ∀ (l : List (Int × fileData)) (b : List Int),
    p ∈ b → (∀ r ∈ l, r.2.scanID = s ∧ r.2.parentID = p) → LinksInto s b l
  | [], _, _, _ => trivial
  | r :: rest, b, hp, h => by
    have hr := h r (List.mem_cons_self _ _)
    refine ⟨hr.1, by rw [hr.2]; exact hp, ?_⟩
    exact LinksInto_of_parent s p rest (b ++ [r.1]) (List.mem_append_left _ hp)
      (fun q hq => h q (List.mem_cons_of_mem _ hq))

theorem LinksInto_index (s : Int) : ∀ (l : List (Int × fileData)) (b : List Int),
    LinksInto s b l → ∀ (i : Nat) (r : Int × fileData), l[i]? = some r →
      r.2.scanID = s ∧
        (r.2.parentID ∈ b ∨
          ∃ (j : Nat) (q : Int × fileData),
            j < i ∧ l[j]? = some q ∧ q.1 = r.2.parentID ∧ q.2.scanID = s)
  | [], _, _, i, r, hget => by simp at hget
  | x :: rest, b, h, i, r, hget => by
    obtain ⟨hs, hp, hrest⟩ := h
    cases i with
    | zero =>
      simp only [List.getElem?_cons_zero, Option.some.injEq] at hget
      subst hget
      exact ⟨hs, Or.inl hp⟩
    | succ k =>
      simp only [List.getElem?_cons_succ] at hget
      obtain ⟨hs2, hcase⟩ := LinksInto_index s rest (b ++ [x.1]) hrest k r hget
      refine ⟨hs2, ?_⟩
      rcases hcase with hmem | ⟨j, q, hj, hq, hid, hqs⟩
      · rcases List.mem_append.1 hmem with h1 | h1
        · exact Or.inl h1
        · right
          refine ⟨0, x, Nat.succ_pos k, by simp, ?_, hs⟩
          exact (List.mem_singleton.1 h1).symm
      · right
        exact ⟨j + 1, q, Nat.succ_lt_succ hj, by simpa using hq, hid, hqs⟩

theorem checkFile_ids (env : Env) (c : FileContent) (fpath : String) (f : FileInfo)
    (err : Option String) (scanID parentID : Int) (stats : perfStats) (NoHash : Bool) :
    (checkFile env c fpath f err scanID parentID stats NoHash).1.scanID = scanID ∧
      (checkFile env c fpath f err scanID parentID stats NoHash).1.parentID = parentID := by
  unfold checkFile
  cases err with
  | some e => simp
  | none =>
    cases hd : f.IsDir with
    | true => simp
    | false =>
      cases NoHash with
      | true => simp
      | false =>
        cases c with
        | openFail e => simp [hashFile]
        | stream bs re => simp [hashFile]

theorem rows_zipWith_mem : ∀ (fdats : List fileData) (as : List ExecResult),
    ∀ r ∈ rows (List.zipWith Event.execFile fdats as), r.2 ∈ fdats
  | [], _, r, hr => by simp [rows] at hr
  | _ :: _, [], r, hr => by simp [rows] at hr
  | f :: fs, a :: as, r, hr => by
    have hcons : rows (List.zipWith Event.execFile (f :: fs) (a :: as)) =
        rows [Event.execFile f a] ++ rows (List.zipWith Event.execFile fs as) := by
      rw [← rows_append]
      rfl
    rw [hcons] at hr
    rcases List.mem_append.1 hr with h | h
    · cases a with
      | failed e => simp [rows, rowOf] at h
      | ok id idErr =>
        simp only [rows, List.filterMap_cons, rowOf, List.filterMap_nil, List.mem_singleton] at h
        subst h
        exact List.mem_cons_self _ _
    · exact List.mem_cons_of_mem _ (rows_zipWith_mem fs as r h)

theorem newFiles_ext (env : Env) (fdats : List fileData) (w : World) :
    ∃ ext, (newFiles env fdats w).2.trace = w.trace ++ ext ∧ ∀ r ∈ rows ext, r.2 ∈ fdats := by
  cases hp : env.prepareErr w.nPrepare with
  | some e =>
    exact ⟨[.prepare sqlInsertFile false], by simp [newFiles, hp, World.emit],
      by simp [rows, rowOf]⟩
  | none =>
    refine ⟨Event.prepare sqlInsertFile true ::
      List.zipWith Event.execFile fdats (answers env w.nExecFile fdats.length),
      newFiles_trace env fdats w hp, ?_⟩
    intro r hr
    have hcons : rows (Event.prepare sqlInsertFile true ::
        List.zipWith Event.execFile fdats (answers env w.nExecFile fdats.length)) =
        rows (List.zipWith Event.execFile fdats (answers env w.nExecFile fdats.length)) := by
      simp [rows, rowOf]
    rw [hcons] at hr
    exact rows_zipWith_mem _ _ r hr

theorem newFiles_single (env : Env) (f : fileData) (w : World) :
    ∃ ext, (newFiles env [f] w).2.trace = w.trace ++ ext ∧
      (StoreOk ext → ∃ id, rows ext = [(id, f)] ∧ (newFiles env [f] w).1 = id) := by
  cases hp : env.prepareErr w.nPrepare with
  | some e =>
    refine ⟨[.prepare sqlInsertFile false], by simp [newFiles, hp, World.emit], ?_⟩
    intro hok
    have := hok (.prepare sqlInsertFile false) (List.mem_singleton.2 rfl)
    simp [Event.storeOk] at this
  | none =>
    refine ⟨[.prepare sqlInsertFile true, .execFile f (env.execFile w.nExecFile)], ?_, ?_⟩
    · cases hr : env.execFile w.nExecFile with
      | failed e => simp [newFiles, hp, newFilesLoop, hr, World.emit]
      | ok id idErr =>
        cases idErr <;> simp [newFiles, hp, newFilesLoop, hr, World.emit]
    · intro hok
      have hgood := hok (.execFile f (env.execFile w.nExecFile))
        (List.mem_cons_of_mem _ (List.mem_singleton.2 rfl))
      cases hr : env.execFile w.nExecFile with
      | failed e => simp [hr, Event.storeOk] at hgood
      | ok id idErr =>
        cases idErr with
        | some x => simp [hr, Event.storeOk] at hgood
        | none =>
          simp only [hr, Event.storeOk, Bool.and_eq_true, decide_eq_true_eq] at hgood
          refine ⟨id, by simp [rows, rowOf], ?_⟩
          have hfit : toInt32 id = id := toInt32_of_fits id (by omega) hgood.2
          simp [newFiles, hp, newFilesLoop, hr, World.emit, hfit]

theorem walk_failed (env : Env) (NoHash : Bool) (err : String) (content : FileContent)
    (dirErr : Option String) (entries : List (FileInfo × FsNode)) (path : String)
    (s p : Int) (w : World) :
    walk env NoHash (.mk (.error err) content dirErr entries) path s p w =
      w.emit (.lstat path) := by
  simp [walk, World.emit, checkFile]

theorem walk_unlisted (env : Env) (NoHash : Bool) (info : FileInfo) (content : FileContent)
    (err : String) (entries : List (FileInfo × FsNode)) (path : String) (s p : Int) (w : World) :
    walk env NoHash (.mk (.ok info) content (some err) entries) path s p w =
      (walkOwn env NoHash content path info s p w).2.emit (.readDir path) := by
  rfl

theorem walk_listed (env : Env) (NoHash : Bool) (info : FileInfo) (content : FileContent)
    (entries : List (FileInfo × FsNode)) (path : String) (s p : Int) (w : World) :
    walk env NoHash (.mk (.ok info) content none entries) path s p w =
      (newFiles env
        (walkLoop env NoHash entries path s (walkOwn env NoHash content path info s p w).1 []
          ((walkOwn env NoHash content path info s p w).2.emit (.readDir path))).1
        (walkLoop env NoHash entries path s (walkOwn env NoHash content path info s p w).1 []
          ((walkOwn env NoHash content path info s p w).2.emit (.readDir path))).2).2 := by
  rfl

theorem walkLoop_symlink (env : Env) (NoHash : Bool) (fileInfo : FileInfo) (child : FsNode)
    (rest : List (FileInfo × FsNode)) (path : String) (s p : Int) (fdats : List fileData)
    (w : World) (h : ¬ fileInfo.mode &&& ModeSymlink = 0) :
    walkLoop env NoHash ((fileInfo, child) :: rest) path s p fdats w =
      walkLoop env NoHash rest path s p fdats w := by
  simp [walkLoop, h]

theorem walkLoop_dir (env : Env) (NoHash : Bool) (fileInfo : FileInfo) (child : FsNode)
    (rest : List (FileInfo × FsNode)) (path : String) (s p : Int) (fdats : List fileData)
    (w : World) (h : fileInfo.mode &&& ModeSymlink = 0) (hd : fileInfo.IsDir = true) :
    walkLoop env NoHash ((fileInfo, child) :: rest) path s p fdats w =
      walkLoop env NoHash rest path s p fdats
        (walk env NoHash child (env.join path fileInfo.name) s p w) := by
  simp [walkLoop, h, hd]

theorem walkLoop_file (env : Env) (NoHash : Bool) (fileInfo : FileInfo) (child : FsNode)
    (rest : List (FileInfo × FsNode)) (path : String) (s p : Int) (fdats : List fileData)
    (w : World) (h : fileInfo.mode &&& ModeSymlink = 0) (hd : fileInfo.IsDir = false) :
    walkLoop env NoHash ((fileInfo, child) :: rest) path s p fdats w =
      walkLoop env NoHash rest path s p
        (fdats ++ [(checkFile env child.content (env.join path fileInfo.name) fileInfo none
          s p w.stats NoHash).1])
        { w with stats := (checkFile env child.content (env.join path fileInfo.name) fileInfo
          none s p w.stats NoHash).2 } := by
  simp [walkLoop, h, hd]

theorem walkOwn_links (env : Env) (NoHash : Bool) (content : FileContent) (path : String)
    (info : FileInfo) (s p : Int) (w : World) :
    ∃ ext, (walkOwn env NoHash content path info s p w).2.trace =
        w.trace ++ Event.lstat path :: ext ∧
      (StoreOk ext → ∃ id e0, rows ext = [(id, e0)] ∧ e0.parentID = p ∧ e0.scanID = s ∧
        (walkOwn env NoHash content path info s p w).1 = id) := by
  obtain ⟨e1, ht1, h1⟩ := newFiles_single env
    (checkFile env content path info none s p w.stats NoHash).1
    { w.emit (.lstat path) with
      stats := (checkFile env content path info none s p w.stats NoHash).2 }
  refine ⟨e1, ?_, ?_⟩
  · unfold walkOwn
    rw [ht1]
    simp [World.emit]
  · intro hok
    obtain ⟨id, hrows, hres⟩ := h1 hok
    exact ⟨id, _, hrows, (checkFile_ids _ _ _ _ _ _ _ _ _).2, (checkFile_ids _ _ _ _ _ _ _ _ _).1,
      hres⟩

mutual
theorem walk_links (env : Env) (NoHash : Bool) :
    ∀ (node : FsNode) (path : String) (s p : Int) (w : World),
      ∃ ext, (walk env NoHash node path s p w).trace = w.trace ++ ext ∧
        (StoreOk ext → rows ext = [] ∨
          ∃ id0 e0 rest, rows ext = (id0, e0) :: rest ∧ e0.parentID = p ∧ e0.scanID = s ∧
            LinksInto s [id0] rest)
  | .mk (.error err) content dirErr entries, path, s, p, w =>
    ⟨[.lstat path], by rw [walk_failed]; rfl, fun _ => Or.inl (by simp [rows, rowOf])⟩
  | .mk (.ok info) content (some err) entries, path, s, p, w => by
    obtain ⟨e1, ht1, h1⟩ := walkOwn_links env NoHash content path info s p w
    refine ⟨Event.lstat path :: e1 ++ [.readDir path], ?_, ?_⟩
    · rw [walk_unlisted]
      simp [World.emit, ht1]
    · intro hok
      have hok1 : StoreOk e1 := fun e he =>
        hok e (List.mem_append_left _ (List.mem_cons_of_mem _ he))
      obtain ⟨id, e0, hrows, hp, hs, -⟩ := h1 hok1
      right
      refine ⟨id, e0, [], ?_, hp, hs, trivial⟩
      have : Event.lstat path :: e1 ++ [Event.readDir path] =
          [Event.lstat path] ++ e1 ++ [Event.readDir path] := rfl
      rw [this, rows_append, rows_append, hrows]
      simp [rows, rowOf]
  | .mk (.ok info) content none entries, path, s, p, w => by
    obtain ⟨e1, ht1, h1⟩ := walkOwn_links env NoHash content path info s p w
    obtain ⟨e2, ht2, h2⟩ := walkLoop_links env NoHash entries path s
      (walkOwn env NoHash content path info s p w).1 []
      ((walkOwn env NoHash content path info s p w).2.emit (.readDir path))
    obtain ⟨e3, ht3, h3⟩ := newFiles_ext env
      (walkLoop env NoHash entries path s (walkOwn env NoHash content path info s p w).1 []
        ((walkOwn env NoHash content path info s p w).2.emit (.readDir path))).1
      (walkLoop env NoHash entries path s (walkOwn env NoHash content path info s p w).1 []
        ((walkOwn env NoHash content path info s p w).2.emit (.readDir path))).2
    refine ⟨[Event.lstat path] ++ e1 ++ [.readDir path] ++ e2 ++ e3, ?_, ?_⟩
    · rw [walk_listed, ht3, ht2]
      simp [World.emit, ht1]
    · intro hok
      rw [StoreOk_append, StoreOk_append, StoreOk_append, StoreOk_append] at hok
      obtain ⟨⟨⟨⟨-, hok1⟩, -⟩, hok2⟩, hok3⟩ := hok
      obtain ⟨id, e0, hrows, hp, hs, hres⟩ := h1 hok1
      rw [hres] at h2 h3
      obtain ⟨hl2, hbatch⟩ := h2 hok2 (by simp)
      right
      refine ⟨id, e0, rows e2 ++ rows e3, ?_, hp, hs, ?_⟩
      · rw [rows_append, rows_append, rows_append, rows_append, hrows]
        simp [rows, rowOf]
      · refine LinksInto_append s _ _ _ hl2 ?_
        refine LinksInto_of_parent s id _ _ (List.mem_singleton.2 rfl) ?_
        intro r hr
        exact hbatch r.2 (h3 r hr)
theorem walkLoop_links (env : Env) (NoHash : Bool) :
    ∀ (entries : List (FileInfo × FsNode)) (path : String) (s p : Int) (fdats : List fileData)
      (w : World),
      ∃ ext, (walkLoop env NoHash entries path s p fdats w).2.trace = w.trace ++ ext ∧
        (StoreOk ext → (∀ f ∈ fdats, f.scanID = s ∧ f.parentID = p) →
          LinksInto s [p] (rows ext) ∧
            ∀ f ∈ (walkLoop env NoHash entries path s p fdats w).1, f.scanID = s ∧ f.parentID = p)
  | [], path, s, p, fdats, w =>
    ⟨[], by simp [walkLoop], fun _ hf => ⟨by simp [rows, LinksInto], by simpa [walkLoop] using hf⟩⟩
  | (fileInfo, child) :: rest, path, s, p, fdats, w => by
    by_cases hsym : fileInfo.mode &&& ModeSymlink = 0
    · cases hd : fileInfo.IsDir with
      | true =>
        obtain ⟨e1, ht1, h1⟩ := walk_links env NoHash child (env.join path fileInfo.name) s p w
        obtain ⟨e2, ht2, h2⟩ := walkLoop_links env NoHash rest path s p fdats
          (walk env NoHash child (env.join path fileInfo.name) s p w)
        refine ⟨e1 ++ e2, ?_, ?_⟩
        · rw [walkLoop_dir env NoHash fileInfo child rest path s p fdats w hsym hd, ht2, ht1,
            List.append_assoc]
        · intro hok hf
          rw [StoreOk_append] at hok
          rw [walkLoop_dir env NoHash fileInfo child rest path s p fdats w hsym hd]
          obtain ⟨hl2, hb2⟩ := h2 hok.2 hf
          refine ⟨?_, hb2⟩
          rw [rows_append]
          refine LinksInto_append s _ _ _ ?_ hl2
          rcases h1 hok.1 with hnil | ⟨id0, e0, tl, hrows, hp, hs, hl⟩
          · rw [hnil]
            trivial
          · rw [hrows]
            refine ⟨hs, by rw [hp]; exact List.mem_singleton.2 rfl, ?_⟩
            exact LinksInto_mono s tl [id0] ([p] ++ [id0])
              (fun x hx => List.mem_append_right _ hx) hl
      | false =>
        obtain ⟨e2, ht2, h2⟩ := walkLoop_links env NoHash rest path s p
          (fdats ++ [(checkFile env child.content (env.join path fileInfo.name) fileInfo none
            s p w.stats NoHash).1])
          { w with stats := (checkFile env child.content (env.join path fileInfo.name) fileInfo
            none s p w.stats NoHash).2 }
        refine ⟨e2, ?_, ?_⟩
        · rw [walkLoop_file env NoHash fileInfo child rest path s p fdats w hsym hd, ht2]
        · intro hok hf
          rw [walkLoop_file env NoHash fileInfo child rest path s p fdats w hsym hd]
          refine h2 hok ?_
          intro f hmem
          rcases List.mem_append.1 hmem with h | h
          · exact hf f h
          · rw [List.mem_singleton.1 h]
            exact checkFile_ids _ _ _ _ _ _ _ _ _
    · obtain ⟨e2, ht2, h2⟩ := walkLoop_links env NoHash rest path s p fdats w
      refine ⟨e2, ?_, ?_⟩
      · rw [walkLoop_symlink env NoHash fileInfo child rest path s p fdats w hsym, ht2]
      · intro hok hf
        rw [walkLoop_symlink env NoHash fileInfo child rest path s p fdats w hsym]
        exact h2 hok hf
end

/-! ### Every row under the Entry of its containing directory -/

theorem isSymlink_iff (f : FileInfo) : f.isSymlink = true ↔ ¬ f.mode &&& ModeSymlink = 0 := by
  simp [FileInfo.isSymlink]

theorem checkFile_entry (env : Env) (c : FileContent) (fpath : String) (f : FileInfo)
    (scanID parentID : Int) (stats : perfStats) (NoHash : Bool) :
    IsEntryOf env fpath f scanID parentID
      (checkFile env c fpath f none scanID parentID stats NoHash).1 := by
  unfold IsEntryOf checkFile
  cases hd : f.IsDir with
  | true => simp
  | false =>
    cases NoHash with
    | true => simp
    | false =>
      cases c with
      | openFail e => simp [hashFile]
      | stream bs re => simp [hashFile]

theorem rows_zipWith_ok : ∀ (fdats : List fileData) (as : List ExecResult),
    as.length = fdats.length → StoreOk (List.zipWith Event.execFile fdats as) →
      (rows (List.zipWith Event.execFile fdats as)).map Prod.snd = fdats
  | [], _, _, _ => by simp [rows]
  | f :: fs, [], hlen, _ => by simp at hlen
  | f :: fs, a :: as, hlen, hok => by
    have hcons : List.zipWith Event.execFile (f :: fs) (a :: as) =
        [Event.execFile f a] ++ List.zipWith Event.execFile fs as := rfl
    rw [hcons, StoreOk_append] at hok
    rw [hcons, rows_append, List.map_append,
      rows_zipWith_ok fs as (by simpa using hlen) hok.2]
    have hgood := hok.1 (Event.execFile f a) (List.mem_singleton.2 rfl)
    cases a with
    | failed e => simp [Event.storeOk] at hgood
    | ok id idErr => simp [rows, rowOf]

theorem newFiles_rows (env : Env) (fdats : List fileData) (w : World) :
    ∃ ext, (newFiles env fdats w).2.trace = w.trace ++ ext ∧
      (StoreOk ext → (rows ext).map Prod.snd = fdats) := by
  cases hp : env.prepareErr w.nPrepare with
  | some e =>
    refine ⟨[.prepare sqlInsertFile false], by simp [newFiles, hp, World.emit], ?_⟩
    intro hok
    have := hok (.prepare sqlInsertFile false) (List.mem_singleton.2 rfl)
    simp [Event.storeOk] at this
  | none =>
    refine ⟨Event.prepare sqlInsertFile true ::
      List.zipWith Event.execFile fdats (answers env w.nExecFile fdats.length),
      newFiles_trace env fdats w hp, ?_⟩
    intro hok
    have hcons : Event.prepare sqlInsertFile true ::
        List.zipWith Event.execFile fdats (answers env w.nExecFile fdats.length) =
        [Event.prepare sqlInsertFile true] ++
          List.zipWith Event.execFile fdats (answers env w.nExecFile fdats.length) := rfl
    rw [hcons, StoreOk_append] at hok
    rw [hcons, rows_append]
    have h := rows_zipWith_ok fdats _ (answers_length env _ _) hok.2
    simpa [rows, rowOf] using h

theorem walkOwn_entry (env : Env) (NoHash : Bool) (content : FileContent) (path : String)
    (info : FileInfo) (s p : Int) (w : World) :
    ∃ ext, (walkOwn env NoHash content path info s p w).2.trace =
        w.trace ++ Event.lstat path :: ext ∧
      (StoreOk ext → ∃ id e0, rows ext = [(id, e0)] ∧ IsEntryOf env path info s p e0 ∧
        (walkOwn env NoHash content path info s p w).1 = id) := by
  obtain ⟨e1, ht1, h1⟩ := newFiles_single env
    (checkFile env content path info none s p w.stats NoHash).1
    { w.emit (.lstat path) with
      stats := (checkFile env content path info none s p w.stats NoHash).2 }
  refine ⟨e1, ?_, ?_⟩
  · unfold walkOwn
    rw [ht1]
    simp [World.emit]
  · intro hok
    obtain ⟨id, hrows, hres⟩ := h1 hok
    exact ⟨id, _, hrows, checkFile_entry _ _ _ _ _ _ _ _, hres⟩

theorem TreeRows_failed (env : Env) (s : Int) (err : String) (content : FileContent)
    (dirErr : Option String) (entries : List (FileInfo × FsNode)) (path : String) (p : Int)
    (l : List (Int × fileData)) :
    TreeRows env s (.mk (.error err) content dirErr entries) path p l ↔ l = [] := by
  simp [TreeRows]

theorem TreeRows_unlisted (env : Env) (s : Int) (info : FileInfo) (content : FileContent)
    (err : String) (entries : List (FileInfo × FsNode)) (path : String) (p : Int)
    (l : List (Int × fileData)) :
    TreeRows env s (.mk (.ok info) content (some err) entries) path p l ↔
      ∃ id e rest, l = (id, e) :: rest ∧ IsEntryOf env path info s p e ∧ rest = [] := by
  simp [TreeRows]

theorem TreeRows_listed (env : Env) (s : Int) (info : FileInfo) (content : FileContent)
    (entries : List (FileInfo × FsNode)) (path : String) (p : Int)
    (l : List (Int × fileData)) :
    TreeRows env s (.mk (.ok info) content none entries) path p l ↔
      ∃ id e rest, l = (id, e) :: rest ∧ IsEntryOf env path info s p e ∧
        ∃ subs files, rest = subs ++ files ∧ SubdirRows env s entries path id subs ∧
          FileRecs env s entries path id (files.map Prod.snd) := by
  simp [TreeRows]

mutual
theorem walk_tree (env : Env) (NoHash : Bool) :
    ∀ (node : FsNode) (path : String) (s p : Int) (w : World),
      ∃ ext, (walk env NoHash node path s p w).trace = w.trace ++ ext ∧
        (StoreOk ext → TreeRows env s node path p (rows ext))
  | .mk (.error err) content dirErr entries, path, s, p, w =>
    ⟨[.lstat path], by rw [walk_failed]; rfl,
      fun _ => (TreeRows_failed _ _ _ _ _ _ _ _ _).2 (by simp [rows, rowOf])⟩
  | .mk (.ok info) content (some err) entries, path, s, p, w => by
    obtain ⟨e1, ht1, h1⟩ := walkOwn_entry env NoHash content path info s p w
    refine ⟨Event.lstat path :: e1 ++ [.readDir path], ?_, ?_⟩
    · rw [walk_unlisted]
      simp [World.emit, ht1]
    · intro hok
      have hok1 : StoreOk e1 := fun e he =>
        hok e (List.mem_append_left _ (List.mem_cons_of_mem _ he))
      obtain ⟨id, e0, hrows, hentry, -⟩ := h1 hok1
      rw [TreeRows_unlisted]
      refine ⟨id, e0, [], ?_, hentry, rfl⟩
      have : Event.lstat path :: e1 ++ [Event.readDir path] =
          [Event.lstat path] ++ e1 ++ [Event.readDir path] := rfl
      rw [this, rows_append, rows_append, hrows]
      simp [rows, rowOf]
  | .mk (.ok info) content none entries, path, s, p, w => by
    obtain ⟨e1, ht1, h1⟩ := walkOwn_entry env NoHash content path info s p w
    obtain ⟨e2, ht2, h2⟩ := walkLoop_tree env NoHash entries path s
      (walkOwn env NoHash content path info s p w).1 []
      ((walkOwn env NoHash content path info s p w).2.emit (.readDir path))
    obtain ⟨e3, ht3, h3⟩ := newFiles_rows env
      (walkLoop env NoHash entries path s (walkOwn env NoHash content path info s p w).1 []
        ((walkOwn env NoHash content path info s p w).2.emit (.readDir path))).1
      (walkLoop env NoHash entries path s (walkOwn env NoHash content path info s p w).1 []
        ((walkOwn env NoHash content path info s p w).2.emit (.readDir path))).2
    refine ⟨[Event.lstat path] ++ e1 ++ [.readDir path] ++ e2 ++ e3, ?_, ?_⟩
    · rw [walk_listed, ht3, ht2]
      simp [World.emit, ht1]
    · intro hok
      rw [StoreOk_append, StoreOk_append, StoreOk_append, StoreOk_append] at hok
      obtain ⟨⟨⟨⟨-, hok1⟩, -⟩, hok2⟩, hok3⟩ := hok
      obtain ⟨id, e0, hrows, hentry, hres⟩ := h1 hok1
      rw [hres] at h2 h3
      obtain ⟨hsub, recs, hbatch, hrecs⟩ := h2 hok2
      have hfiles := h3 hok3
      rw [hbatch, List.nil_append] at hfiles
      rw [TreeRows_listed]
      refine ⟨id, e0, rows e2 ++ rows e3, ?_, hentry, rows e2, rows e3, rfl, hsub, ?_⟩
      · rw [rows_append, rows_append, rows_append, rows_append, hrows]
        simp [rows, rowOf]
      · rw [hfiles]
        exact hrecs
theorem walkLoop_tree (env : Env) (NoHash : Bool) :
    ∀ (entries : List (FileInfo × FsNode)) (path : String) (s p : Int) (fdats : List fileData)
      (w : World),
      ∃ ext, (walkLoop env NoHash entries path s p fdats w).2.trace = w.trace ++ ext ∧
        (StoreOk ext → SubdirRows env s entries path p (rows ext) ∧
          ∃ recs, (walkLoop env NoHash entries path s p fdats w).1 = fdats ++ recs ∧
            FileRecs env s entries path p recs)
  | [], path, s, p, fdats, w =>
    ⟨[], by simp [walkLoop], fun _ =>
      ⟨by simp [rows, SubdirRows], [], by simp [walkLoop], by simp [FileRecs]⟩⟩
  | (fileInfo, child) :: rest, path, s, p, fdats, w => by
    by_cases hsym : fileInfo.mode &&& ModeSymlink = 0
    · have hns : fileInfo.isSymlink = false := by
        cases h : fileInfo.isSymlink with
        | false => rfl
        | true => exact absurd hsym ((isSymlink_iff fileInfo).1 h)
      cases hd : fileInfo.IsDir with
      | true =>
        obtain ⟨e1, ht1, h1⟩ := walk_tree env NoHash child (env.join path fileInfo.name) s p w
        obtain ⟨e2, ht2, h2⟩ := walkLoop_tree env NoHash rest path s p fdats
          (walk env NoHash child (env.join path fileInfo.name) s p w)
        refine ⟨e1 ++ e2, ?_, ?_⟩
        · rw [walkLoop_dir env NoHash fileInfo child rest path s p fdats w hsym hd, ht2, ht1,
            List.append_assoc]
        · intro hok
          rw [StoreOk_append] at hok
          rw [walkLoop_dir env NoHash fileInfo child rest path s p fdats w hsym hd]
          obtain ⟨hsub, recs, hbatch, hrecs⟩ := h2 hok.2
          refine ⟨?_, recs, hbatch, ?_⟩
          · simp only [SubdirRows, hns, hd, Bool.false_eq_true, if_false, if_true]
            exact ⟨rows e1, rows e2, rows_append _ _, h1 hok.1, hsub⟩
          · simpa [FileRecs, hns, hd] using hrecs
      | false =>
        obtain ⟨e2, ht2, h2⟩ := walkLoop_tree env NoHash rest path s p
          (fdats ++ [(checkFile env child.content (env.join path fileInfo.name) fileInfo none
            s p w.stats NoHash).1])
          { w with stats := (checkFile env child.content (env.join path fileInfo.name) fileInfo
            none s p w.stats NoHash).2 }
        refine ⟨e2, ?_, ?_⟩
        · rw [walkLoop_file env NoHash fileInfo child rest path s p fdats w hsym hd, ht2]
        · intro hok
          rw [walkLoop_file env NoHash fileInfo child rest path s p fdats w hsym hd]
          obtain ⟨hsub, recs, hbatch, hrecs⟩ := h2 hok
          refine ⟨by simpa [SubdirRows, hns, hd] using hsub,
            (checkFile env child.content (env.join path fileInfo.name) fileInfo none
              s p w.stats NoHash).1 :: recs, by rw [hbatch]; simp, ?_⟩
          simp only [FileRecs, hns, hd, Bool.false_eq_true, if_false]
          exact ⟨_, recs, rfl, checkFile_entry _ _ _ _ _ _ _ _, hrecs⟩
    · have hs : fileInfo.isSymlink = true := (isSymlink_iff fileInfo).2 hsym
      obtain ⟨e2, ht2, h2⟩ := walkLoop_tree env NoHash rest path s p fdats w
      refine ⟨e2, ?_, ?_⟩
      · rw [walkLoop_symlink env NoHash fileInfo child rest path s p fdats w hsym, ht2]
      · intro hok
        rw [walkLoop_symlink env NoHash fileInfo child rest path s p fdats w hsym]
        obtain ⟨hsub, recs, hbatch, hrecs⟩ := h2 hok
        exact ⟨by simpa [SubdirRows, hs] using hsub, recs, hbatch,
          by simpa [FileRecs, hs] using hrecs⟩
end

theorem walk_parent_links_index (env : Env) (NoHash : Bool) (node : FsNode) (path : String)
    (scanID : Int) (w : World) (ext : List Event)
    (htrace : (walk env NoHash node path scanID 0 w).trace = w.trace ++ ext)
    (hok : StoreOk ext) :
    ParentLinked scanID (rows ext) := by
  obtain ⟨ext2, ht, h⟩ := walk_links env NoHash node path scanID 0 w
  have hext : ext2 = ext := List.append_cancel_left (ht.symm.trans htrace)
  subst hext
  have hpos := rows_pos ext2 hok
  rcases h hok with hnil | ⟨id0, e0, rest, hrows, hp, hs, hl⟩
  · intro i r hget
    rw [hnil] at hget
    simp at hget
  · rw [hrows] at hpos ⊢
    intro i r hget
    cases i with
    | zero =>
      simp only [List.getElem?_cons_zero, Option.some.injEq] at hget
      subst hget
      exact ⟨hs, fun _ => hp, fun h0 => absurd h0 (Nat.lt_irrefl 0)⟩
    | succ k =>
      simp only [List.getElem?_cons_succ] at hget
      obtain ⟨hs2, hcase⟩ := LinksInto_index scanID rest [id0] hl k r hget
      refine ⟨hs2, fun h0 => absurd h0 (Nat.succ_ne_zero k), fun _ => ?_⟩
      rcases hcase with hmem | ⟨j, q, hj, hq, hid, hqs⟩
      · have hid : r.2.parentID = id0 := List.mem_singleton.1 hmem
        have h0 := hpos (id0, e0) (List.mem_cons_self _ _)
        refine ⟨by rw [hid]; exact ne_of_gt h0, 0, (id0, e0), Nat.succ_pos k, by simp, hid.symm, hs⟩
      · have hqmem : q ∈ rest := List.getElem?_mem hq
        have h0 := hpos q (List.mem_cons_of_mem _ hqmem)
        refine ⟨by rw [← hid]; exact ne_of_gt h0, j + 1, q, Nat.succ_lt_succ hj, by simpa using hq,
          hid, hqs⟩

/-- C3, as amended. Take the events `ext` that `walk(root, scanID, 0, ...)` adds
to the trace, and suppose that in them every `Prepare` succeeded and every
insert stored a row and reported an identifier between 1 and 2^31 - 1
(increasing or not).  Then the rows inserted are those of the tree: first the
Entry of the root with parent 0 and, under every directory that was listed,
the rows of its subdirectories and the Entries of its files, each with the
identifier of the Entry of the directory that contains it as its parent.  And
so every row belongs to `scanID`, the first one (the root) has parent 0, and
every later one has a parent other than 0 that is the identifier of a row of
the same scan inserted before it. -/
theorem walk_parent_links (env : Env) (NoHash : Bool) (node : FsNode) (path : String)
    (scanID : Int) (w : World) (ext : List Event)
    (htrace : (walk env NoHash node path scanID 0 w).trace = w.trace ++ ext)
    (hok : StoreOk ext) :
    TreeRows env scanID node path 0 (rows ext) ∧ ParentLinked scanID (rows ext) := by
  refine ⟨?_, walk_parent_links_index env NoHash node path scanID w ext htrace hok⟩
  obtain ⟨ext2, ht, h⟩ := walk_tree env NoHash node path scanID 0 w
  have hext : ext2 = ext := List.append_cancel_left (ht.symm.trans htrace)
  subst hext
  exact h hok

/-- Witness for C3 as amended: the directory `r` with the directory `d`
(holding `b.txt`) and the file `a.txt`, scanned into the store of `demoEnv`. -/
theorem walk_parent_links_witness :
    StoreOk (walk demoEnv false nestedNode "r" 1 0 World.init).trace ∧
      TreeRows demoEnv 1 nestedNode "r" 0
        (rows (walk demoEnv false nestedNode "r" 1 0 World.init).trace) ∧
      ParentLinked 1 (rows (walk demoEnv false nestedNode "r" 1 0 World.init).trace) :=
  ⟨by unfold StoreOk; decide,
    walk_parent_links demoEnv false nestedNode "r" 1 World.init
      (walk demoEnv false nestedNode "r" 1 0 World.init).trace (by simp [World.init])
      (by unfold StoreOk; decide)⟩

/-- The rows of the walk over `r`: `r` is row 1 under 0, `d` row 2 under 1,
`b.txt` row 3 under 2 (the Entry of `d`, which contains it) and `a.txt` row 4
under 1. -/
theorem walk_nested_rows :
    (rows (walk demoEnv false nestedNode "r" 1 0 World.init).trace).map
      (fun r => (r.1, r.2.parentID, r.2.name)) =
      [(1, 0, "r"), (2, 1, "d"), (3, 2, "b.txt"), (4, 1, "a.txt")] := by
  decide

/-- The tree property tells the Entry of the containing directory from other
earlier rows: the four rows of the walk over `r` with `b.txt` put under `r`
(row 1) instead of `d` (row 2) are not the rows of the tree. -/
theorem TreeRows_needs_containing_directory :
    ¬ TreeRows demoEnv 1 nestedNode "r" 0
      [(1, (checkFile demoEnv (.openFail "") "r" rootInfo none 1 0 World.init.stats false).1),
       (2, (checkFile demoEnv (.openFail "") "r/d" subdirInfo none 1 1 World.init.stats false).1),
       (3, (checkFile demoEnv fileNode.content "r/d/b.txt" otherFileInfo none 1 1
          World.init.stats false).1),
       (4, (checkFile demoEnv fileNode.content "r/a.txt" demoFileInfo none 1 1
          World.init.stats false).1)] := by
  have s1 : subdirInfo.isSymlink = false := by decide
  have d1 : subdirInfo.IsDir = true := by decide
  have s2 : otherFileInfo.isSymlink = false := by decide
  have d2 : otherFileInfo.IsDir = false := by decide
  have s3 : demoFileInfo.isSymlink = false := by decide
  have d3 : demoFileInfo.IsDir = false := by decide
  intro h
  rw [nestedNode, TreeRows_listed] at h
  obtain ⟨id, e, rest, hl, -, subs, files, hrest, hsub, -⟩ := h
  simp only [List.cons.injEq, Prod.mk.injEq] at hl
  obtain ⟨⟨hid, -⟩, hrest2⟩ := hl
  subst hid
  simp only [SubdirRows, s1, d1, s3, d3, Bool.false_eq_true, if_false, if_true] at hsub
  obtain ⟨a, b, hab, htree, hb⟩ := hsub
  subst hb
  rw [TreeRows_listed] at htree
  obtain ⟨id2, e2, rest2, ha, -, subs2, files2, hrest3, hsub2, hfiles2⟩ := htree
  simp only [SubdirRows, s2, d2, Bool.false_eq_true, if_false] at hsub2
  simp only [FileRecs, s2, d2, Bool.false_eq_true, if_false] at hfiles2
  obtain ⟨eb, tl, hmap, hentry, htl⟩ := hfiles2
  subst hsub2
  subst htl
  subst hrest3
  subst ha
  subst hab
  subst hrest
  cases rest2 with
  | nil => simp at hmap
  | cons f fs =>
    simp only [List.map_cons, List.cons.injEq, List.map_eq_nil_iff] at hmap
    obtain ⟨hf, hfs⟩ := hmap
    subst hfs
    simp only [List.append_nil, List.cons_append, List.nil_append, List.cons.injEq,
      Prod.mk.injEq] at hrest2
    obtain ⟨⟨hid2, -⟩, hf2, -⟩ := hrest2
    subst hid2
    rw [← hf, ← hf2] at hentry
    have hp := hentry.2.1
    revert hp
    decide

/-- C3, counterexample. In a store whose next identifier is 2^31, every insert
of the walk over `r` succeeds and the identifiers increase strictly, yet the
row of `a.txt` has the parent -2^31, which is the identifier of no row. -/
theorem walk_parent_links_wrap :
    (∀ e ∈ (walk bigIdEnv false dirNode "r" 1 0 World.init).trace, e.inserted = true) ∧
      IdsIncrease (rows (walk bigIdEnv false dirNode "r" 1 0 World.init).trace) ∧
      (rows (walk bigIdEnv false dirNode "r" 1 0 World.init).trace).map
        (fun r => (r.1, r.2.parentID)) = [(2147483648, 0), (2147483649, -2147483648)] ∧
      ¬ ParentLinked 1 (rows (walk bigIdEnv false dirNode "r" 1 0 World.init).trace) := by
  refine ⟨by decide, by unfold IdsIncrease; decide, by decide, ?_⟩
  intro h
  have hrows : rows (walk bigIdEnv false dirNode "r" 1 0 World.init).trace =
      [(2147483648, (checkFile bigIdEnv dirNode.content "r" rootInfo none 1 0
          World.init.stats false).1),
        (2147483649, (checkFile bigIdEnv fileNode.content "r/a.txt" demoFileInfo none 1
          (-2147483648) World.init.stats false).1)] := by
    decide
  rw [hrows] at h
  obtain ⟨-, -, h3⟩ := h 1 _ rfl
  obtain ⟨-, j, q, hj, hq, hid, -⟩ := h3 Nat.one_pos
  have hj0 : j = 0 := by omega
  subst hj0
  simp only [List.getElem?_cons_zero, Option.some.injEq] at hq
  subst hq
  revert hid
  decide

/-! ### One transaction for all roots -/

theorem walkOnly_not_scanPrepare (e : Event) (h : e.walkOnly = true) :
    e.isScanPrepare = false := by
  cases e with
  | prepare sql ok =>
    simp only [Event.walkOnly, beq_iff_eq] at h
    subst h
    show (sqlInsertFile == sqlInsertScan) = false
    decide
  | lstat _ => rfl
  | readDir _ => rfl
  | sqlOpen _ => rfl
  | exec _ _ => rfl
  | dbBegin => rfl
  | execScan _ _ _ => rfl
  | execFile _ _ => rfl
  | dbCommit => rfl
  | dbClose => rfl

theorem walkOnly_scanDirOf (e : Event) (h : e.walkOnly = true) : scanDirOf e = none := by
  cases e <;> simp_all [Event.walkOnly, scanDirOf]

theorem walkOnly_scanPhase (e : Event) (h : e.walkOnly = true) : e.scanPhase = true := by
  cases e <;> simp_all [Event.walkOnly, Event.scanPhase]

theorem zipWith_execFile_walkOnly : ∀ (fdats : List fileData) (as : List ExecResult),
    ∀ e ∈ List.zipWith Event.execFile fdats as, e.walkOnly = true
  | [], _, e, he => by simp at he
  | _ :: _, [], e, he => by simp at he
  | f :: fs, a :: as, e, he => by
    simp only [List.zipWith_cons_cons, List.mem_cons] at he
    rcases he with h | h
    · subst h
      rfl
    · exact zipWith_execFile_walkOnly fs as e h

theorem newFiles_events (env : Env) (fdats : List fileData) (w : World) :
    ∃ ext, (newFiles env fdats w).2.trace = w.trace ++ ext ∧ ∀ e ∈ ext, e.walkOnly = true := by
  cases hp : env.prepareErr w.nPrepare with
  | some err =>
    refine ⟨[.prepare sqlInsertFile false], by simp [newFiles, hp, World.emit], ?_⟩
    intro e he
    rw [List.mem_singleton.1 he]
    decide
  | none =>
    refine ⟨_, newFiles_trace env fdats w hp, ?_⟩
    intro e he
    rcases List.mem_cons.1 he with h | h
    · rw [h]
      decide
    · exact zipWith_execFile_walkOnly _ _ e h

theorem walkOwn_events (env : Env) (NoHash : Bool) (content : FileContent) (path : String)
    (info : FileInfo) (s p : Int) (w : World) :
    ∃ ext, (walkOwn env NoHash content path info s p w).2.trace =
        w.trace ++ Event.lstat path :: ext ∧ ∀ e ∈ ext, e.walkOnly = true := by
  obtain ⟨e1, ht1, h1⟩ := newFiles_events env
    [(checkFile env content path info none s p w.stats NoHash).1]
    { w.emit (.lstat path) with
      stats := (checkFile env content path info none s p w.stats NoHash).2 }
  refine ⟨e1, ?_, h1⟩
  unfold walkOwn
  rw [ht1]
  simp [World.emit]

mutual
theorem walk_events (env : Env) (NoHash : Bool) :
    ∀ (node : FsNode) (path : String) (s p : Int) (w : World),
      ∃ ext, (walk env NoHash node path s p w).trace = w.trace ++ Event.lstat path :: ext ∧
        ∀ e ∈ ext, e.walkOnly = true
  | .mk (.error err) content dirErr entries, path, s, p, w =>
    ⟨[], by rw [walk_failed]; rfl, by simp⟩
  | .mk (.ok info) content (some err) entries, path, s, p, w => by
    obtain ⟨e1, ht1, h1⟩ := walkOwn_events env NoHash content path info s p w
    refine ⟨e1 ++ [.readDir path], ?_, ?_⟩
    · rw [walk_unlisted]
      simp [World.emit, ht1]
    · intro e he
      rcases List.mem_append.1 he with h | h
      · exact h1 e h
      · rw [List.mem_singleton.1 h]
        rfl
  | .mk (.ok info) content none entries, path, s, p, w => by
    obtain ⟨e1, ht1, h1⟩ := walkOwn_events env NoHash content path info s p w
    obtain ⟨e2, ht2, h2⟩ := walkLoop_events env NoHash entries path s
      (walkOwn env NoHash content path info s p w).1 []
      ((walkOwn env NoHash content path info s p w).2.emit (.readDir path))
    obtain ⟨e3, ht3, h3⟩ := newFiles_events env
      (walkLoop env NoHash entries path s (walkOwn env NoHash content path info s p w).1 []
        ((walkOwn env NoHash content path info s p w).2.emit (.readDir path))).1
      (walkLoop env NoHash entries path s (walkOwn env NoHash content path info s p w).1 []
        ((walkOwn env NoHash content path info s p w).2.emit (.readDir path))).2
    refine ⟨e1 ++ [.readDir path] ++ e2 ++ e3, ?_, ?_⟩
    · rw [walk_listed, ht3, ht2]
      simp [World.emit, ht1]
    · intro e he
      rcases List.mem_append.1 he with h | h
      · rcases List.mem_append.1 h with h | h
        · rcases List.mem_append.1 h with h | h
          · exact h1 e h
          · rw [List.mem_singleton.1 h]
            rfl
        · exact h2 e h
      · exact h3 e h
theorem walkLoop_events (env : Env) (NoHash : Bool) :
    ∀ (entries : List (FileInfo × FsNode)) (path : String) (s p : Int) (fdats : List fileData)
      (w : World),
      ∃ ext, (walkLoop env NoHash entries path s p fdats w).2.trace = w.trace ++ ext ∧
        ∀ e ∈ ext, e.walkOnly = true
  | [], path, s, p, fdats, w => ⟨[], by simp [walkLoop], by simp⟩
  | (fileInfo, child) :: rest, path, s, p, fdats, w => by
    by_cases hsym : fileInfo.mode &&& ModeSymlink = 0
    · cases hd : fileInfo.IsDir with
      | true =>
        obtain ⟨e1, ht1, h1⟩ := walk_events env NoHash child (env.join path fileInfo.name) s p w
        obtain ⟨e2, ht2, h2⟩ := walkLoop_events env NoHash rest path s p fdats
          (walk env NoHash child (env.join path fileInfo.name) s p w)
        refine ⟨Event.lstat (env.join path fileInfo.name) :: e1 ++ e2, ?_, ?_⟩
        · rw [walkLoop_dir env NoHash fileInfo child rest path s p fdats w hsym hd, ht2, ht1]
          simp
        · intro e he
          rcases List.mem_append.1 he with h | h
          · rcases List.mem_cons.1 h with h | h
            · rw [h]
              rfl
            · exact h1 e h
          · exact h2 e h
      | false =>
        obtain ⟨e2, ht2, h2⟩ := walkLoop_events env NoHash rest path s p
          (fdats ++ [(checkFile env child.content (env.join path fileInfo.name) fileInfo none
            s p w.stats NoHash).1])
          { w with stats := (checkFile env child.content (env.join path fileInfo.name) fileInfo
            none s p w.stats NoHash).2 }
        exact ⟨e2, by rw [walkLoop_file env NoHash fileInfo child rest path s p fdats w hsym hd,
          ht2], h2⟩
    · obtain ⟨e2, ht2, h2⟩ := walkLoop_events env NoHash rest path s p fdats w
      exact ⟨e2, by rw [walkLoop_symlink env NoHash fileInfo child rest path s p fdats w hsym,
        ht2], h2⟩
end

theorem ScanThenWalk_cons (e : Event) (l : List Event)
    (he : ∀ (d : String) (t id : Int), e ≠ Event.execScan d t (.ok id none))
    (h : ScanThenWalk l) : ScanThenWalk (e :: l) := by
  intro pre d t id post hdec
  cases pre with
  | nil =>
    simp only [List.nil_append, List.cons.injEq] at hdec
    exact absurd hdec.1 (he d t id)
  | cons x pre =>
    simp only [List.cons_append, List.cons.injEq] at hdec
    exact h pre d t id post hdec.2

theorem ScanThenWalk_scan (d : String) (t id : Int) (l : List Event)
    (h : ScanThenWalk (Event.lstat d :: l)) :
    ScanThenWalk (Event.execScan d t (.ok id none) :: Event.lstat d :: l) := by
  intro pre d2 t2 id2 post hdec
  cases pre with
  | nil =>
    simp only [List.nil_append, List.cons.injEq, Event.execScan.injEq, ExecResult.ok.injEq,
      and_true] at hdec
    obtain ⟨⟨hd, -, -⟩, hpost⟩ := hdec
    subst hd
    exact ⟨l, hpost.symm⟩
  | cons x pre =>
    simp only [List.cons_append, List.cons.injEq] at hdec
    exact h pre d2 t2 id2 post hdec.2

theorem ScanThenWalk_walkOnly : ∀ (a l : List Event), (∀ e ∈ a, e.walkOnly = true) →
    ScanThenWalk l → ScanThenWalk (a ++ l)
  | [], l, _, h => by simpa using h
  | e :: a, l, ha, h => by
    refine ScanThenWalk_cons e (a ++ l) ?_
      (ScanThenWalk_walkOnly a l (fun x hx => ha x (List.mem_cons_of_mem _ hx)) h)
    intro d t id heq
    have := ha e (List.mem_cons_self _ _)
    rw [heq] at this
    simp [Event.walkOnly] at this

theorem ScanBody_nil : ScanBody [] [] := by
  refine ⟨by simp, rfl, List.Sublist.slnil, ?_⟩
  intro pre d t id post hdec
  simp at hdec

theorem ScanBody_prepareFailed (d : String) (ds : List String) (body : List Event)
    (h : ScanBody ds body) : ScanBody (d :: ds) (Event.prepare sqlInsertScan false :: body) := by
  obtain ⟨h1, h2, h3, h4⟩ := h
  refine ⟨?_, ?_, ?_, ?_⟩
  · intro e he
    rcases List.mem_cons.1 he with h | h
    · rw [h]
      decide
    · exact h1 e h
  · simp [List.filter_cons, Event.isScanPrepare, h2]
  · simpa [List.filterMap_cons, scanDirOf] using List.Sublist.cons d h3
  · exact ScanThenWalk_cons _ _ (fun _ _ _ => by simp) h4

theorem ScanBody_execFailed (d : String) (t : Int) (r : ExecResult) (ds : List String)
    (body : List Event) (hr : r.reportsId = false) (h : ScanBody ds body) :
    ScanBody (d :: ds) (Event.prepare sqlInsertScan true :: Event.execScan d t r :: body) := by
  obtain ⟨h1, h2, h3, h4⟩ := h
  refine ⟨?_, ?_, ?_, ?_⟩
  · intro e he
    rcases List.mem_cons.1 he with h | h
    · rw [h]
      decide
    · rcases List.mem_cons.1 h with h | h
      · rw [h]
        rfl
      · exact h1 e h
  · simp [List.filter_cons, Event.isScanPrepare, h2]
  · simpa [List.filterMap_cons, scanDirOf] using h3
  · refine ScanThenWalk_cons _ _ (fun _ _ _ => by simp) (ScanThenWalk_cons _ _ ?_ h4)
    intro d2 t2 id heq
    simp only [Event.execScan.injEq] at heq
    rw [heq.2.2] at hr
    simp [ExecResult.reportsId] at hr

theorem ScanBody_walked (d : String) (t id : Int) (ds : List String) (ext body : List Event)
    (hext : ∀ e ∈ ext, e.walkOnly = true) (h : ScanBody ds body) :
    ScanBody (d :: ds)
      (Event.prepare sqlInsertScan true :: Event.execScan d t (.ok id none) ::
        Event.lstat d :: (ext ++ body)) := by
  obtain ⟨h1, h2, h3, h4⟩ := h
  have hfilter : (ext ++ body).filter Event.isScanPrepare = body.filter Event.isScanPrepare := by
    rw [List.filter_append]
    have : ext.filter Event.isScanPrepare = [] := by
      rw [List.filter_eq_nil_iff]
      intro e he
      simp [walkOnly_not_scanPrepare e (hext e he)]
    rw [this, List.nil_append]
  have hdirs : (ext ++ body).filterMap scanDirOf = body.filterMap scanDirOf := by
    rw [List.filterMap_append]
    have : ext.filterMap scanDirOf = [] := by
      rw [List.filterMap_eq_nil_iff]
      intro e he
      exact walkOnly_scanDirOf e (hext e he)
    rw [this, List.nil_append]
  refine ⟨?_, ?_, ?_, ?_⟩
  · intro e he
    rcases List.mem_cons.1 he with h | h
    · rw [h]
      decide
    · rcases List.mem_cons.1 h with h | h
      · rw [h]
        rfl
      · rcases List.mem_cons.1 h with h | h
        · rw [h]
          rfl
        · rcases List.mem_append.1 h with h | h
          · exact walkOnly_scanPhase e (hext e h)
          · exact h1 e h
  · simp [List.filter_cons, Event.isScanPrepare, hfilter, h2]
  · simpa [List.filterMap_cons, scanDirOf, hdirs] using h3
  · refine ScanThenWalk_cons _ _ (fun _ _ _ => by simp) (ScanThenWalk_scan d t id _ ?_)
    exact ScanThenWalk_cons _ _ (fun _ _ _ => by simp) (ScanThenWalk_walkOnly ext body hext h4)

theorem scanRoots_events (x : createCommand) (env : Env) :
    ∀ (baseDirs : List (String × FsNode)) (w : World),
      ∃ body, (scanRoots x env baseDirs w).trace = w.trace ++ body ∧
        ScanBody (baseDirs.map Prod.fst) body
  | [], w => ⟨[], by simp [scanRoots], ScanBody_nil⟩
  | (baseDir, node) :: rest, w => by
    cases hp : env.prepareErr w.nPrepare with
    | some err =>
      obtain ⟨body, ht, hb⟩ := scanRoots_events x env rest
        { w.emit (.prepare sqlInsertScan false) with nPrepare := w.nPrepare + 1 }
      refine ⟨Event.prepare sqlInsertScan false :: body, ?_,
        ScanBody_prepareFailed baseDir _ body hb⟩
      simp only [scanRoots, newScan, hp, Option.isNone_some]
      rw [ht]
      simp [World.emit]
    | none =>
      cases hr : env.execScan w.nExecScan with
      | failed err =>
        obtain ⟨body, ht, hb⟩ := scanRoots_events x env rest
          { (({ w.emit (.prepare sqlInsertScan true) with nPrepare := w.nPrepare + 1 } :
              World).emit (.execScan baseDir env.now (.failed err))) with
            nExecScan := w.nExecScan + 1 }
        refine ⟨Event.prepare sqlInsertScan true ::
          Event.execScan baseDir env.now (.failed err) :: body, ?_,
          ScanBody_execFailed baseDir _ _ _ body rfl hb⟩
        simp only [scanRoots, newScan, hp, Option.isNone_none, World.emit, hr]
        simp only [World.emit] at ht
        rw [ht]
        simp
      | ok id idErr =>
        cases idErr with
        | some err =>
          obtain ⟨body, ht, hb⟩ := scanRoots_events x env rest
            { (({ w.emit (.prepare sqlInsertScan true) with nPrepare := w.nPrepare + 1 } :
                World).emit (.execScan baseDir env.now (.ok id (some err)))) with
              nExecScan := w.nExecScan + 1 }
          refine ⟨Event.prepare sqlInsertScan true ::
            Event.execScan baseDir env.now (.ok id (some err)) :: body, ?_,
            ScanBody_execFailed baseDir _ _ _ body rfl hb⟩
          simp only [scanRoots, newScan, hp, Option.isNone_none, World.emit, hr]
          simp only [World.emit] at ht
          rw [ht]
          simp
        | none =>
          obtain ⟨ext, hte, he⟩ := walk_events env x.NoHash node baseDir (toInt32 id) 0
            { (({ w.emit (.prepare sqlInsertScan true) with nPrepare := w.nPrepare + 1 } :
                World).emit (.execScan baseDir env.now (.ok id none))) with
              nExecScan := w.nExecScan + 1 }
          obtain ⟨body, ht, hb⟩ := scanRoots_events x env rest
            (walk env x.NoHash node baseDir (toInt32 id) 0
              { (({ w.emit (.prepare sqlInsertScan true) with nPrepare := w.nPrepare + 1 } :
                  World).emit (.execScan baseDir env.now (.ok id none))) with
                nExecScan := w.nExecScan + 1 })
          refine ⟨Event.prepare sqlInsertScan true ::
            Event.execScan baseDir env.now (.ok id none) :: Event.lstat baseDir :: (ext ++ body),
            ?_, ScanBody_walked baseDir _ id _ ext body he hb⟩
          simp only [scanRoots, newScan, hp, Option.isNone_none, World.emit, hr]
          simp only [World.emit] at ht hte
          rw [ht, hte]
          simp

theorem scanPhase_not_tx (body : List Event) (h : ∀ e ∈ body, e.scanPhase = true) :
    Event.dbBegin ∉ body ∧ Event.dbCommit ∉ body := by
  constructor
  · intro hmem
    have := h _ hmem
    simp [Event.scanPhase, Event.walkOnly] at this
  · intro hmem
    have := h _ hmem
    simp [Event.scanPhase, Event.walkOnly] at this

theorem scanRoots_append (x : createCommand) (env : Env) :
    ∀ (a b : List (String × FsNode)) (w : World),
      scanRoots x env (a ++ b) w = scanRoots x env b (scanRoots x env a w)
  | [], b, w => rfl
  | (d, node) :: a, b, w => by
    cases h : newScan env d w with
    | mk r w1 =>
      cases r with
      | error e =>
        simp only [List.cons_append, scanRoots, h]
        exact scanRoots_append x env a b w1
      | ok scanID =>
        simp only [List.cons_append, scanRoots, h]
        exact scanRoots_append x env a b _

theorem scanRoots_single (x : createCommand) (env : Env) (d : String) (node : FsNode)
    (w : World) :
    scanRoots x env [(d, node)] w =
      (match newScan env d w with
        | (.error _, w1) => w1
        | (.ok scanID, w1) => walk env x.NoHash node d scanID 0 w1) := by
  cases h : newScan env d w with
  | mk r w1 =>
    cases r with
    | error e => simp [scanRoots, h]
    | ok scanID => simp [scanRoots, h]

/-- C7, as amended. When the store opens and the transaction begins, `Execute`
ends normally and its trace is: the set-up of `dbInit`, one begin, the scans of
all the roots, one commit, the close.  The scans hold no begin and no commit,
so the only commit comes after the last root; every root has its own `newScan`
begun, whatever happened to the roots before it; the inserts into table `scan`
name the roots in order; and every `newScan` that succeeds is at once followed
by the walk of its root.  Root by root: the state after a root is the state
the roots before it left, followed by `newScan` of that root and, when that
succeeds, by `walk(root, scanID, 0, ...)` with the identifier it returned, and
otherwise by nothing more; and everything this did is in the trace before the
one commit. -/
theorem Execute_one_transaction (x : createCommand) (env : Env) (dbname : String)
    (baseDirs : List (String × FsNode)) (hopen : env.openErr = none)
    (hbegin : env.beginErr = none) :
    ∃ w setup body, x.Execute env dbname baseDirs = some w ∧
      w.trace = setup ++ Event.dbBegin :: body ++ [Event.dbCommit, Event.dbClose] ∧
      (Event.dbBegin ∉ setup ∧ Event.dbCommit ∉ setup) ∧
      (Event.dbBegin ∉ body ∧ Event.dbCommit ∉ body) ∧
      ScanBody (baseDirs.map Prod.fst) body ∧
      (afterBegin env dbname).trace = setup ++ [Event.dbBegin] ∧
      (∀ (pre : List (String × FsNode)) (d : String) (node : FsNode)
          (post : List (String × FsNode)), baseDirs = pre ++ (d, node) :: post →
        scanRoots x env (pre ++ [(d, node)]) (afterBegin env dbname) =
            (match newScan env d (scanRoots x env pre (afterBegin env dbname)) with
              | (.error _, w1) => w1
              | (.ok scanID, w1) => walk env x.NoHash node d scanID 0 w1) ∧
          ∃ rest, w.trace =
            (scanRoots x env (pre ++ [(d, node)]) (afterBegin env dbname)).trace ++ rest ++
              [Event.dbCommit, Event.dbClose]) := by
  have h1 : ¬ Int.land modeCreate modeList = modeList := by decide
  obtain ⟨hres, htrace⟩ := dbInit_trace env dbname modeCreate
    { World.init with stats := { World.init.stats with start := env.now } } hopen
  rw [if_neg h1] at htrace
  obtain ⟨body, ht, hb⟩ := scanRoots_events x env baseDirs (afterBegin env dbname)
  have hexec : x.Execute env dbname baseDirs =
      some (((scanRoots x env baseDirs (afterBegin env dbname)).emit .dbCommit).emit .dbClose) := by
    have hpair : dbInit env dbname modeCreate
        { World.init with stats := { World.init.stats with start := env.now } } =
        (none, (dbInit env dbname modeCreate
          { World.init with stats := { World.init.stats with start := env.now } }).2) := by
      rw [← hres]
    show (match dbInit env dbname modeCreate
        { World.init with stats := { World.init.stats with start := env.now } } with
      | (some _, w) => some w
      | (none, w) =>
        match env.beginErr with
        | some _ => none
        | none =>
          some (((scanRoots x env baseDirs (w.emit .dbBegin)).emit .dbCommit).emit .dbClose)) = _
    rw [hpair, hbegin]
    rfl
  have hab : (afterBegin env dbname).trace =
      (Event.sqlOpen dbname ::
        Event.exec sqlPragma (env.execErr 0).isNone ::
        Event.exec sqlCreateScan (env.execErr 1).isNone ::
        Event.exec sqlCreateFile (env.execErr 2).isNone ::
        [Event.exec sqlDropIdxId (env.execErr 3).isNone,
         Event.exec sqlDropIdxMd5 (env.execErr 4).isNone,
         Event.exec sqlDropIdxSha1 (env.execErr 5).isNone]) ++ [Event.dbBegin] := by
    unfold afterBegin
    simp only [World.emit, htrace]
    simp [World.init]
  refine ⟨_, _, body, hexec, ?_, ?_, scanPhase_not_tx body hb.1, hb, hab, ?_⟩
  · simp only [World.emit]
    rw [ht, hab]
    simp
  · constructor <;> simp
  · intro pre d node post hsplit
    refine ⟨?_, ?_⟩
    · rw [scanRoots_append, scanRoots_single]
    · have hsplit2 : baseDirs = (pre ++ [(d, node)]) ++ post := by
        rw [hsplit]
        simp
      obtain ⟨rest, hrest, -⟩ := scanRoots_events x env post
        (scanRoots x env (pre ++ [(d, node)]) (afterBegin env dbname))
      refine ⟨rest, ?_⟩
      rw [← scanRoots_append, ← hsplit2] at hrest
      simp only [World.emit]
      rw [hrest]
      simp

/-- Witness for C7 as amended: two roots scanned into the store of `demoEnv`. -/
theorem Execute_one_transaction_witness :
    demoEnv.openErr = none ∧ demoEnv.beginErr = none ∧
    ∃ w setup body, createCommand.Execute ⟨false⟩ demoEnv "cf.db" twoRoots = some w ∧
      w.trace = setup ++ Event.dbBegin :: body ++ [Event.dbCommit, Event.dbClose] ∧
      (Event.dbBegin ∉ setup ∧ Event.dbCommit ∉ setup) ∧
      (Event.dbBegin ∉ body ∧ Event.dbCommit ∉ body) ∧
      ScanBody (twoRoots.map Prod.fst) body :=
  ⟨rfl, rfl,
    match Execute_one_transaction ⟨false⟩ demoEnv "cf.db" twoRoots rfl rfl with
    | ⟨w, setup, body, h1, h2, h3, h4, h5, _⟩ => ⟨w, setup, body, h1, h2, h3, h4, h5⟩⟩

/-- C7, counterexample. With the two roots `r` and `locked`, both scans
succeed, and between the insert of the first scan and the insert of the second
there is no commit: the row of `r` and the row of `a.txt` are followed directly
by the `newScan` of `locked`. -/
theorem Execute_commit_shared :
    ∃ w, createCommand.Execute ⟨false⟩ demoEnv "cf.db" twoRoots = some w ∧
      ¬ CommitPerRoot w.trace := by
  refine ⟨_, rfl, ?_⟩
  intro h
  have hmid := h
    (List.take 9 ((createCommand.Execute ⟨false⟩ demoEnv "cf.db" twoRoots).getD World.init).trace)
    "r" 0 (.ok 1 none)
    (List.take 7 (List.drop 10
      ((createCommand.Execute ⟨false⟩ demoEnv "cf.db" twoRoots).getD World.init).trace))
    "locked" 0 (.ok 2 none)
    (List.drop 18 ((createCommand.Execute ⟨false⟩ demoEnv "cf.db" twoRoots).getD World.init).trace)
    rfl
  revert hmid
  decide

/-! ### The running counters -/

theorem toInt64_add_left (a b : Int) : toInt64 (toInt64 a + b) = toInt64 (a + b) := by
  unfold toInt64
  have h : ((a + 9223372036854775808) % 18446744073709551616 - 9223372036854775808 + b +
      9223372036854775808) % 18446744073709551616 =
      (a + b + 9223372036854775808) % 18446744073709551616 := by
    have e1 : (a + 9223372036854775808) % 18446744073709551616 - 9223372036854775808 + b +
        9223372036854775808 = (a + 9223372036854775808) % 18446744073709551616 + b := by ring
    have e2 : a + b + 9223372036854775808 = (a + 9223372036854775808) + b := by ring
    rw [e1, e2, Int.emod_add_cancel_right]
    exact Int.emod_emod_of_dvd _ (dvd_refl _)
  rw [h]

theorem toInt64_idem (a : Int) : toInt64 (toInt64 a) = toInt64 a := by
  have h := toInt64_add_left a 0
  simpa using h

theorem toInt64_congr_add (a b c : Int) (h : toInt64 a = toInt64 b) :
    toInt64 (a + c) = toInt64 (b + c) := by
  rw [← toInt64_add_left a c, ← toInt64_add_left b c, h]

theorem Counted_refl (s : perfStats) : Counted s s [] := by
  simp [Counted]

theorem Counted_trans (s s1 s2 : perfStats) (a b : List FileInfo)
    (h1 : Counted s s1 a) (h2 : Counted s1 s2 b) : Counted s s2 (a ++ b) := by
  obtain ⟨hd1, hf1, hb1, hs1, rd1, rf1, rb1⟩ := h1
  obtain ⟨hd2, hf2, hb2, hs2, rd2, rf2, rb2⟩ := h2
  refine ⟨?_, ?_, ?_, hs2.trans hs1, fun h => rd2 (rd1 h), fun h => rf2 (rf1 h),
    fun h => rb2 (rb1 h)⟩
  · rw [hd2, List.filter_append, List.length_append, Nat.add_mod, hd1, ← Nat.add_mod]
    congr 1
    omega
  · rw [hf2, List.filter_append, List.length_append, Nat.add_mod, hf1, ← Nat.add_mod]
    congr 1
    omega
  · rw [hb2, List.filter_append, List.map_append, List.sum_append]
    rw [toInt64_congr_add _ _ _ hb1]
    congr 1
    ring

theorem checkFile_stats_dir (env : Env) (c : FileContent) (fpath : String) (f : FileInfo)
    (scanID parentID : Int) (stats : perfStats) (NoHash : Bool) (hd : f.IsDir = true) :
    (checkFile env c fpath f none scanID parentID stats NoHash).2 =
      { stats with dirs := toUint32 (stats.dirs + 1) } := by
  simp [checkFile, hd]

theorem checkFile_stats_file (env : Env) (c : FileContent) (fpath : String) (f : FileInfo)
    (scanID parentID : Int) (stats : perfStats) (NoHash : Bool) (hd : f.IsDir = false) :
    (checkFile env c fpath f none scanID parentID stats NoHash).2 =
      { stats with files := toUint32 (stats.files + 1),
                   bytes := toInt64 (stats.bytes + f.size) } := by
  simp [checkFile, hd]

theorem checkFile_counted (env : Env) (c : FileContent) (fpath : String) (f : FileInfo)
    (scanID parentID : Int) (stats : perfStats) (NoHash : Bool) :
    Counted stats (checkFile env c fpath f none scanID parentID stats NoHash).2 [f] := by
  cases hd : f.IsDir with
  | true =>
    rw [checkFile_stats_dir env c fpath f scanID parentID stats NoHash hd]
    simp only [Counted, hd, List.filter_cons, List.filter_nil, if_true,
      Bool.not_true, List.length_cons, List.length_nil, List.map_nil, List.sum_nil, toUint32]
    refine ⟨by simp, by simp, by simp, trivial, fun _ => Nat.mod_lt _ (by decide), fun h => h,
      fun h => h⟩
  | false =>
    rw [checkFile_stats_file env c fpath f scanID parentID stats NoHash hd]
    simp only [Counted, hd, List.filter_cons, List.filter_nil,
      Bool.not_false, List.length_cons, List.length_nil, List.map_cons, List.map_nil,
      List.sum_cons, List.sum_nil, toUint32]
    refine ⟨by simp, by simp, by simp [toInt64_idem], trivial, fun h => by simpa using h,
      fun _ => by simpa using Nat.mod_lt _ (by decide), fun _ => by simp [toInt64_idem]⟩

theorem newFiles_stats (env : Env) (fdats : List fileData) (w : World) :
    (newFiles env fdats w).2.stats = w.stats := by
  unfold newFiles
  cases hp : env.prepareErr w.nPrepare with
  | some err => rfl
  | none =>
    simp only []
    rw [(newFilesLoop_spec env fdats 0 _).2.1]
    rfl

theorem walkOwn_stats (env : Env) (NoHash : Bool) (content : FileContent) (path : String)
    (info : FileInfo) (s p : Int) (w : World) :
    (walkOwn env NoHash content path info s p w).2.stats =
      (checkFile env content path info none s p w.stats NoHash).2 := by
  unfold walkOwn
  rw [newFiles_stats]

mutual
theorem walk_counted (env : Env) (NoHash : Bool) :
    ∀ (node : FsNode) (path : String) (s p : Int) (w : World),
      Counted w.stats (walk env NoHash node path s p w).stats (visited node)
  | .mk (.error err) content dirErr entries, path, s, p, w => by
    rw [walk_failed]
    exact Counted_refl _
  | .mk (.ok info) content (some err) entries, path, s, p, w => by
    rw [walk_unlisted]
    have h : ((walkOwn env NoHash content path info s p w).2.emit (.readDir path)).stats =
        (checkFile env content path info none s p w.stats NoHash).2 := by
      rw [← walkOwn_stats]
      rfl
    rw [h]
    exact checkFile_counted _ _ _ _ _ _ _ _
  | .mk (.ok info) content none entries, path, s, p, w => by
    rw [walk_listed, newFiles_stats]
    have h1 : Counted w.stats
        ((walkOwn env NoHash content path info s p w).2.emit (.readDir path)).stats [info] := by
      have h : ((walkOwn env NoHash content path info s p w).2.emit (.readDir path)).stats =
          (checkFile env content path info none s p w.stats NoHash).2 := by
        rw [← walkOwn_stats]
        rfl
      rw [h]
      exact checkFile_counted _ _ _ _ _ _ _ _
    have h2 := walkLoop_counted env NoHash entries path s
      (walkOwn env NoHash content path info s p w).1 []
      ((walkOwn env NoHash content path info s p w).2.emit (.readDir path))
    exact Counted_trans _ _ _ [info] (visitedList entries) h1 h2
theorem walkLoop_counted (env : Env) (NoHash : Bool) :
    ∀ (entries : List (FileInfo × FsNode)) (path : String) (s p : Int) (fdats : List fileData)
      (w : World),
      Counted w.stats (walkLoop env NoHash entries path s p fdats w).2.stats
        (visitedList entries)
  | [], path, s, p, fdats, w => by
    simp only [walkLoop, visitedList]
    exact Counted_refl _
  | (fileInfo, child) :: rest, path, s, p, fdats, w => by
    by_cases hsym : fileInfo.mode &&& ModeSymlink = 0
    · have hns : fileInfo.isSymlink = false := by
        cases h : fileInfo.isSymlink with
        | false => rfl
        | true => exact absurd hsym ((isSymlink_iff fileInfo).1 h)
      cases hd : fileInfo.IsDir with
      | true =>
        rw [walkLoop_dir env NoHash fileInfo child rest path s p fdats w hsym hd]
        have hv : visitedList ((fileInfo, child) :: rest) = visited child ++ visitedList rest := by
          simp [visitedList, hns, hd]
        rw [hv]
        exact Counted_trans _ _ _ _ _
          (walk_counted env NoHash child (env.join path fileInfo.name) s p w)
          (walkLoop_counted env NoHash rest path s p fdats _)
      | false =>
        rw [walkLoop_file env NoHash fileInfo child rest path s p fdats w hsym hd]
        have hv : visitedList ((fileInfo, child) :: rest) = [fileInfo] ++ visitedList rest := by
          simp [visitedList, hns, hd]
        rw [hv]
        exact Counted_trans _ _ _ _ _
          (checkFile_counted env child.content (env.join path fileInfo.name) fileInfo s p
            w.stats NoHash)
          (walkLoop_counted env NoHash rest path s p _ _)
    · rw [walkLoop_symlink env NoHash fileInfo child rest path s p fdats w hsym]
      have hv : visitedList ((fileInfo, child) :: rest) = visitedList rest := by
        simp [visitedList, (isSymlink_iff fileInfo).2 hsym]
      rw [hv]
      exact walkLoop_counted env NoHash rest path s p fdats w
end

/-- What the counters show after any walk, without overflow: `dirs` has grown
by the number of directories visited, `files` by the number of non-directory
entries visited and `bytes` by the sum of their sizes, whatever `NoHash` and
the outcome of hashing; a root that `Lstat` describes as a symbolic link is a
non-directory entry here. -/
theorem walk_counters (env : Env) (NoHash : Bool) (node : FsNode) (path : String)
    (s p : Int) (w : World)
    (hd : w.stats.dirs + dirsVisited node < 4294967296)
    (hf : w.stats.files + nonDirsVisited node < 4294967296)
    (hb0 : toInt64 w.stats.bytes = w.stats.bytes)
    (hb : toInt64 (w.stats.bytes + nonDirBytesVisited node) =
      w.stats.bytes + nonDirBytesVisited node) :
    (walk env NoHash node path s p w).stats.dirs = w.stats.dirs + dirsVisited node ∧
      (walk env NoHash node path s p w).stats.files = w.stats.files + nonDirsVisited node ∧
      (walk env NoHash node path s p w).stats.bytes =
        w.stats.bytes + nonDirBytesVisited node := by
  obtain ⟨h1, h2, h3, -, r1, r2, r3⟩ := walk_counted env NoHash node path s p w
  have hd2 := r1 (by omega)
  have hf2 := r2 (by omega)
  have hb2 := r3 hb0
  unfold dirsVisited at hd ⊢
  unfold nonDirsVisited at hf ⊢
  unfold nonDirBytesVisited at hb ⊢
  refine ⟨?_, ?_, ?_⟩
  · rw [Nat.mod_eq_of_lt hd2, Nat.mod_eq_of_lt hd] at h1
    exact h1
  · rw [Nat.mod_eq_of_lt hf2, Nat.mod_eq_of_lt hf] at h2
    exact h2
  · rw [hb2, hb] at h3
    exact h3

end Cf
